import Mathlib

/-!
Verification of the skill-test runner (crates/skill-test-core, crates/skill-test).

This file gives a shallow embedding of the pure core of the test runner and
proves the stated properties over it.  Conventions used throughout:

* Rust `String` values whose character structure matters (truncation, hashing)
  are modelled as `List Char`; identifiers and messages are Lean `String`s.
* Rust `f64` arithmetic (the pass rate) is modelled by `ℚ`.
* Effectful calls (spawning the external agent, evaluating an assertion that
  shells out, reading a file) are modelled by passing their outcome in as an
  argument (`Except` values or outcome-returning functions); the surrounding
  control flow is translated from the source.
* A Rust byte-slice operation that can panic on a non-boundary index is
  modelled as an `Option`-returning function (`none` = panic).
* Filesystem paths are modelled as lists of components; `canonicalize` and
  file reading are supplied by an abstract `FileSys` record.
-/

namespace SkillTest

/-! ## Basic data model (skill-test-core/src/types.rs) -/

/-- Test verdict (`types.rs: Verdict`). -/
inductive Verdict
  | Pass
  | Fail
  | Warn
deriving DecidableEq, Repr

/-- Expectation for pattern assertions (`types.rs: PatternExpect`). -/
inductive PatternExpect
  | Present
  | Absent
deriving DecidableEq, Repr

/-- Regex assertion payload (`types.rs: RegexAssertion`). -/
structure RegexAssertion where
  id : String
  desc : Option String
  pattern : String
  expect : PatternExpect
deriving DecidableEq, Repr

/-- Contains assertion payload (`types.rs: ContainsAssertion`). -/
structure ContainsAssertion where
  id : String
  desc : Option String
  pattern : String
  expect : PatternExpect
deriving DecidableEq, Repr

/-- Line count assertion payload (`types.rs: LineCountAssertion`). -/
structure LineCountAssertion where
  id : String
  desc : Option String
  min : Option Nat
  max : Option Nat
deriving DecidableEq, Repr

/-- Expectation for exec assertions (`types.rs: ExecExpect`). -/
inductive ExecExpect
  | ExitCodeZero
  | OutputContains (output_contains : String)
deriving DecidableEq, Repr

/-- Exec assertion payload (`types.rs: ExecAssertion`). -/
structure ExecAssertion where
  id : String
  desc : Option String
  command : String
  language : Option String
  timeout_ms : Nat
  expect : ExecExpect
deriving DecidableEq, Repr

/-- Expectation for LLM evaluation assertions (`types.rs: LlmEvalExpect`). -/
inductive LlmEvalExpect
  | Pass
  | Fail
deriving DecidableEq, Repr

/-- LLM evaluation assertion payload (`types.rs: LlmEvalAssertion`).  The JSON
schema payload is opaque to every property proved here and is modelled as an
optional string. -/
structure LlmEvalAssertion where
  id : String
  desc : Option String
  pattern : String
  expect : LlmEvalExpect
  timeout_ms : Nat
  json_schema : Option String
deriving DecidableEq, Repr

/-- The `tool_called` assertion payload (`types.rs: ToolCalledAssertion`). -/
structure ToolCalledAssertion where
  id : String
  desc : Option String
  pattern : String
  expect : PatternExpect
deriving DecidableEq, Repr

/-- Union type over the six assertion kinds (`types.rs: Assertion`). -/
inductive Assertion
  | Regex (a : RegexAssertion)
  | Contains (a : ContainsAssertion)
  | LineCount (a : LineCountAssertion)
  | Exec (a : ExecAssertion)
  | LlmEval (a : LlmEvalAssertion)
  | ToolCalled (a : ToolCalledAssertion)
deriving DecidableEq, Repr

namespace Assertion

/-- Assertion ID accessor (`types.rs: Assertion::id`). -/
def id : Assertion → String
  | .Regex a => a.id
  | .Contains a => a.id
  | .LineCount a => a.id
  | .Exec a => a.id
  | .LlmEval a => a.id
  | .ToolCalled a => a.id

/-- Assertion description accessor (`types.rs: Assertion::desc`). -/
def desc : Assertion → Option String
  | .Regex a => a.desc
  | .Contains a => a.desc
  | .LineCount a => a.desc
  | .Exec a => a.desc
  | .LlmEval a => a.desc
  | .ToolCalled a => a.desc

/-- Assertion type name accessor (`types.rs: Assertion::type_name`). -/
def type_name : Assertion → String
  | .Regex _ => "regex"
  | .Contains _ => "contains"
  | .LineCount _ => "line_count"
  | .Exec _ => "exec"
  | .LlmEval _ => "llm_eval"
  | .ToolCalled _ => "tool_called"

/-- Assertion pattern accessor (`types.rs: Assertion::pattern`). -/
def pattern : Assertion → Option String
  | .Regex a => some a.pattern
  | .Contains a => some a.pattern
  | .LineCount _ => none
  | .Exec _ => none
  | .LlmEval a => some a.pattern
  | .ToolCalled a => some a.pattern

end Assertion

/-- Hook type (`types.rs: HookType`). -/
inductive HookType
  | None
  | Simple
  | Forced
  | Custom
deriving DecidableEq, Repr

/-- Filesystem path, modelled as a list of components. -/
abbrev Path := List String

/-- Skill test configuration (`types.rs: SkillTestConfig`). -/
structure SkillTestConfig where
  model : String
  timeout : Nat
  iterations : Nat
  threshold : Nat
  hook : HookType
  hook_path : Option Path
  test_patterns : List String
  exclude_patterns : List String
  strict : Bool
deriving DecidableEq, Repr

/-- Default configuration values (`types.rs: impl Default for SkillTestConfig`). -/
def SkillTestConfig.default : SkillTestConfig where
  model := "claude-sonnet-4-20250514"
  timeout := 60000
  iterations := 10
  threshold := 80
  hook := .Simple
  hook_path := none
  test_patterns :=
    ["skill-tests/**/test-*.yaml", "skill-tests/**/test-*.yml",
     "skill-tests/**/*.spec.yaml", "skill-tests/**/*.spec.yml"]
  exclude_patterns := ["node_modules/"]
  strict := false

/-- Skill directory information (`types.rs: SkillDir`). -/
structure SkillDir where
  path : Path
  name : String
  config : SkillTestConfig
deriving DecidableEq, Repr

/-! ## UTF-8 string model and the three truncation functions

Strings whose truncation behaviour is verified are `List Char`.  `byteLen`
is the UTF-8 byte length, `byteTake` models taking a byte-indexed prefix of
the UTF-8 encoding: it returns `none` exactly when the index is not a
character boundary, which in the Rust source (`&s[..i]`) is a panic. -/

/-- UTF-8 byte length of a character list. -/
def byteLen (s : List Char) : Nat := (s.map Char.utf8Size).sum

/-- Take the first `n` bytes of the UTF-8 encoding of `s`, as characters.
Returns `none` when `n` is not a character boundary (a panicking slice in
Rust). -/
def byteTake : List Char → Nat → Option (List Char)
  | _, 0 => some []
  | [], _ + 1 => none
  | c :: cs, n + 1 =>
    if c.utf8Size ≤ n + 1 then (byteTake cs (n + 1 - c.utf8Size)).map (c :: ·)
    else none

/-- Model of Rust `str::char_indices`: each character paired with the byte
offset at which it starts. -/
def charIndicesAux : List Char → Nat → List (Nat × Char)
  | [], _ => []
  | c :: cs, i => (i, c) :: charIndicesAux cs (i + c.utf8Size)

/-- Character list with byte offsets, starting at offset 0. -/
def charIndices (s : List Char) : List (Nat × Char) := charIndicesAux s 0

/-- Maximum stored output size in characters (`runner.rs: MAX_OUTPUT_CHARS`). -/
def MAX_OUTPUT_CHARS : Nat := 100000

/-- Character-budget truncation used for the stored `output` field
(`runner.rs: truncate_utf8`).  Takes at most `max_chars` characters and
appends the marker when anything was left over. -/
def truncate_utf8 (s : List Char) (max_chars : Nat) : List Char :=
  let truncated := s.take max_chars
  if (s.drop max_chars).isEmpty then truncated
  else truncated ++ ("... [truncated]".data)

/-- Byte-budget truncation used on error paths for prompts and stdout
(`claude.rs: truncate_string`).  The Rust function slices the string at
`i + c.len_utf8()` for the last character starting before `max_len`; the
slice is modelled by `byteTake`, so a non-boundary index would surface as
`none`. -/
def truncate_string (s : List Char) (max_len : Nat) : Option (List Char) :=
  if byteLen s ≤ max_len then some s
  else
    let fit := ((charIndices s).takeWhile fun p => p.1 < max_len).getLast?
    let end_idx := match fit with
      | some (i, c) => i + c.utf8Size
      | none => 0
    (byteTake s end_idx).map fun t => t ++ ("...[truncated]".data)

/-- First line of a string, modelling `str::lines().next().unwrap_or("")`
(split at a newline, with a trailing carriage return stripped). -/
def firstLine (s : List Char) : List Char :=
  let l := s.takeWhile fun c => c ≠ '\n'
  if l.getLast? = some '\r' then l.dropLast else l

/-- Preview truncation: first line only, character budget
(`runner.rs: truncate_output`).  The Rust function slices the first line at
the byte offset of its `max_len`-th character; the slice is modelled by
`byteTake`. -/
def truncate_output (s : List Char) (max_len : Nat) : Option (List Char) :=
  let first_line := firstLine s
  if first_line.length ≤ max_len then some first_line
  else
    let end_idx := (((charIndices first_line).get? max_len).map Prod.fst).getD
      (byteLen first_line)
    (byteTake first_line end_idx).map fun t => t ++ ("...".data)

/-! ### Truncation lemmas -/

/-! ## SHA-256 (the `sha2` crate dependency, FIPS 180-4)

The runner hashes outputs with the external `sha2` crate.  The function is
modelled here by the standard SHA-256 algorithm over byte lists, with 32-bit
words as naturals reduced modulo `2 ^ 32`. -/

/-- Reduce to a 32-bit word. -/
def w32 (n : Nat) : Nat := n % 4294967296

/-- Rotate a 32-bit word right by `n` bits. -/
def rotr32 (n x : Nat) : Nat := w32 ((x >>> n) ||| (x <<< (32 - n)))

/-- Bitwise complement of a 32-bit word. -/
def notw (x : Nat) : Nat := x ^^^ 4294967295

/-- SHA-256 choose function. -/
def sha2Ch (x y z : Nat) : Nat := (x &&& y) ^^^ (notw x &&& z)

/-- SHA-256 majority function. -/
def sha2Maj (x y z : Nat) : Nat := (x &&& y) ^^^ (x &&& z) ^^^ (y &&& z)

/-- SHA-256 big sigma 0. -/
def bigSigma0 (x : Nat) : Nat := rotr32 2 x ^^^ rotr32 13 x ^^^ rotr32 22 x

/-- SHA-256 big sigma 1. -/
def bigSigma1 (x : Nat) : Nat := rotr32 6 x ^^^ rotr32 11 x ^^^ rotr32 25 x

/-- SHA-256 small sigma 0. -/
def smallSigma0 (x : Nat) : Nat := rotr32 7 x ^^^ rotr32 18 x ^^^ (x >>> 3)

/-- SHA-256 small sigma 1. -/
def smallSigma1 (x : Nat) : Nat := rotr32 17 x ^^^ rotr32 19 x ^^^ (x >>> 10)

/-- SHA-256 round constants. -/
def sha2K : List Nat :=
  [1116352408, 1899447441, 3049323471, 3921009573, 961987163, 1508970993,
   2453635748, 2870763221, 3624381080, 310598401, 607225278, 1426881987,
   1925078388, 2162078206, 2614888103, 3248222580, 3835390401, 4022224774,
   264347078, 604807628, 770255983, 1249150122, 1555081692, 1996064986,
   2554220882, 2821834349, 2952996808, 3210313671, 3336571891, 3584528711,
   113926993, 338241895, 666307205, 773529912, 1294757372, 1396182291,
   1695183700, 1986661051, 2177026350, 2456956037, 2730485921, 2820302411,
   3259730800, 3345764771, 3516065817, 3600352804, 4094571909, 275423344,
   430227734, 506948616, 659060556, 883997877, 958139571, 1322822218,
   1537002063, 1747873779, 1955562222, 2024104815, 2227730452, 2361852424,
   2428436474, 2756734187, 3204031479, 3329325298]

/-- SHA-256 hash state: eight 32-bit words. -/
structure Sha256State where
  a0 : Nat
  a1 : Nat
  a2 : Nat
  a3 : Nat
  a4 : Nat
  a5 : Nat
  a6 : Nat
  a7 : Nat
deriving DecidableEq, Repr

/-- SHA-256 initial hash value. -/
def sha2H0 : Sha256State :=
  ⟨1779033703, 3144134277, 1013904242, 2773480762,
   1359893119, 2600822924, 528734635, 1541459225⟩

/-- Extend the 16-word message schedule by `k` further words. -/
def extendW (w : List Nat) : Nat → List Nat
  | 0 => w
  | k + 1 =>
    let v := extendW w k
    let n := v.length
    v ++ [w32 (smallSigma1 (v.getD (n - 2) 0) + v.getD (n - 7) 0 +
      smallSigma0 (v.getD (n - 15) 0) + v.getD (n - 16) 0)]

/-- One compression round of SHA-256. -/
def compressRound (st : Sha256State) (k w : Nat) : Sha256State :=
  let t1 := w32 (st.a7 + bigSigma1 st.a4 + sha2Ch st.a4 st.a5 st.a6 + k + w)
  let t2 := w32 (bigSigma0 st.a0 + sha2Maj st.a0 st.a1 st.a2)
  ⟨w32 (t1 + t2), st.a0, st.a1, st.a2, w32 (st.a3 + t1), st.a4, st.a5, st.a6⟩

/-- Process one 512-bit block, given as its 16 big-endian words. -/
def processBlock (st : Sha256State) (block : List Nat) : Sha256State :=
  let w := extendW block 48
  let f := (sha2K.zip w).foldl (fun s p => compressRound s p.1 p.2) st
  ⟨w32 (st.a0 + f.a0), w32 (st.a1 + f.a1), w32 (st.a2 + f.a2), w32 (st.a3 + f.a3),
   w32 (st.a4 + f.a4), w32 (st.a5 + f.a5), w32 (st.a6 + f.a6), w32 (st.a7 + f.a7)⟩

/-- 8-byte big-endian encoding of a 64-bit value. -/
def be64 (n : Nat) : List Nat :=
  [n / 2 ^ 56 % 256, n / 2 ^ 48 % 256, n / 2 ^ 40 % 256, n / 2 ^ 32 % 256,
   n / 2 ^ 24 % 256, n / 2 ^ 16 % 256, n / 2 ^ 8 % 256, n % 256]

/-- 4-byte big-endian encoding of a 32-bit word. -/
def be32 (n : Nat) : List Nat :=
  [n / 2 ^ 24 % 256, n / 2 ^ 16 % 256, n / 2 ^ 8 % 256, n % 256]

/-- SHA-256 message padding: a `0x80` byte, zeros to 56 mod 64, and the
bit length as a 64-bit big-endian value. -/
def padMessage (msg : List Nat) : List Nat :=
  msg ++ [128] ++ List.replicate ((120 - (msg.length + 1) % 64) % 64) 0 ++
    be64 (msg.length * 8)

/-- Big-endian word from a byte list. -/
def beWord (bs : List Nat) : Nat := bs.foldl (fun acc b => acc * 256 + b) 0

/-- SHA-256 digest (32 bytes) of a byte list. -/
def sha256 (msg : List Nat) : List Nat :=
  let final := ((padMessage msg).toChunks 64).foldl
    (fun st chunk => processBlock st ((chunk.toChunks 4).map beWord)) sha2H0
  be32 final.a0 ++ be32 final.a1 ++ be32 final.a2 ++ be32 final.a3 ++
    be32 final.a4 ++ be32 final.a5 ++ be32 final.a6 ++ be32 final.a7

/-- Lowercase hexadecimal digit. -/
def hexDigit (n : Nat) : Char := ("0123456789abcdef".data).getD n 'x'

/-- Two lowercase hexadecimal digits of a byte. -/
def hexByte (b : Nat) : List Char := [hexDigit (b / 16), hexDigit (b % 16)]

/-- Lowercase hexadecimal encoding of a byte list (`hex::encode` and the
fold in `claude.rs: compute_output_hash`). -/
def hexEncode (bs : List Nat) : List Char := (bs.map hexByte).join

/-- UTF-8 encoding of one character. -/
def utf8Bytes (c : Char) : List Nat :=
  let n := c.toNat
  if n < 0x80 then [n]
  else if n < 0x800 then
    [0xC0 ||| (n >>> 6), 0x80 ||| (n &&& 0x3F)]
  else if n < 0x10000 then
    [0xE0 ||| (n >>> 12), 0x80 ||| ((n >>> 6) &&& 0x3F), 0x80 ||| (n &&& 0x3F)]
  else
    [0xF0 ||| (n >>> 18), 0x80 ||| ((n >>> 12) &&& 0x3F),
     0x80 ||| ((n >>> 6) &&& 0x3F), 0x80 ||| (n &&& 0x3F)]

/-- UTF-8 encoding of a character list. -/
def utf8Encode (s : List Char) : List Nat := (s.map utf8Bytes).join

/-- SHA-256 of the output text as lowercase hex
(`claude.rs: compute_output_hash`). -/
def compute_output_hash (output : List Char) : String :=
  ⟨hexEncode (sha256 (utf8Encode output))⟩

/-! ## Loader data model (types.rs, scenario and list shapes) -/

/-- File reference value: single path or list of paths (`types.rs: FileRefValue`). -/
inductive FileRefValue
  | Single (p : Path)
  | Multiple (ps : List Path)
deriving DecidableEq, Repr

/-- Inline assertion or file reference (`types.rs: AssertionOrFile`). -/
inductive AssertionOrFile
  | Inline (a : Assertion)
  | FileRef (file : FileRefValue)
deriving DecidableEq, Repr

/-- Simplified (list-shape) test case (`types.rs: SimplifiedTestCase`). -/
structure SimplifiedTestCase where
  id : String
  desc : Option String
  prompt : String
  iterations : Option Nat
  assertions : List AssertionOrFile
  golden_assertions : List AssertionOrFile
deriving DecidableEq, Repr

/-! ## Iteration and test-case results (types.rs detailed types) -/

/-- Detailed per-assertion record (`types.rs: DetailedAssertionResult`). -/
structure DetailedAssertionResult where
  name : String
  desc : Option String
  assertion_type : String
  pattern : Option String
  passed : Bool
  error : Option String
deriving DecidableEq, Repr

/-- Detailed per-iteration record (`types.rs: DetailedIterationResult`). -/
structure DetailedIterationResult where
  iteration : Nat
  passed : Bool
  latency_ms : Nat
  output : List Char
  output_hash : String
  called_tools : List String
  assertions : List DetailedAssertionResult
  golden_assertions : List DetailedAssertionResult
deriving DecidableEq, Repr

/-- Per-iteration summary (`runner.rs: SimplifiedIterationResult`). -/
structure SimplifiedIterationResult where
  test_id : String
  iteration : Nat
  output_text : List Char
  output_hash : String
  called_tools : List String
  assertion_passed : Bool
  golden_passed : Option Bool
  failures : List String
  golden_failures : List String
  latency_ms : Nat
deriving DecidableEq, Repr

/-- Per-test summary (`types.rs: SimplifiedTestResult`); `pass_rate` models
the Rust `f64` as a rational. -/
structure SimplifiedTestResult where
  id : String
  iterations : Nat
  passed : Nat
  failed : Nat
  pass_rate : ℚ
  verdict : Verdict
  failures : List String
  golden_failures : List String
  called_tools : List String
deriving DecidableEq, Repr

/-- Detailed per-test record (`types.rs: DetailedTestResult`). -/
structure DetailedTestResult where
  name : String
  desc : Option String
  prompt : String
  iterations : List DetailedIterationResult
  summary : SimplifiedTestResult
deriving DecidableEq, Repr

/-! ## Iteration runner (runner.rs)

The external-agent invocation (`claude.rs: execute_claude`) and the
evaluation of a single assertion (`assertion.rs: evaluate_assertion`) are
asynchronous, effectful calls; their outcomes are supplied as arguments.
Progress events only mirror data also present in the returned records and
are not modelled. -/

/-- What the iteration runner consumes of a successful agent invocation
(`claude.rs: ExecutionResult` projected through `called_tools()` and
`.response.result`). -/
structure ExecutionResult where
  result : List Char
  called_tools : List String
  latency_ms : Nat

/-- Outcome of `evaluate_assertion` for each assertion of one iteration;
the error is the rendered message string. -/
abbrev EvalOutcome := Assertion → Except String Bool

/-- Environment of one iteration: `error msg` models a failed invocation
(timeout, spawn failure) with its rendered message, `ok` a successful one
together with the assertion-evaluation outcomes. -/
abbrev IterationEnv := Except String (ExecutionResult × EvalOutcome)

/-- Build a detailed assertion record (`runner.rs: build_detailed_assertion`). -/
def build_detailed_assertion (a : Assertion) (passed : Bool) (error : Option String) :
    DetailedAssertionResult :=
  { name := a.id, desc := a.desc, assertion_type := a.type_name,
    pattern := a.pattern, passed, error }

/-- The assertion loop of `run_simplified_iteration_with_progress`:
accumulates the conjunction of results, the failure messages (the bare id on
a false result, `id: error` on an evaluation error) and the detailed
records.  The golden loop in the source performs the identical per-assertion
computation. -/
def evalAssertions (ev : EvalOutcome) :
    List Assertion → Bool × List String × List DetailedAssertionResult
  | [] => (true, [], [])
  | a :: rest =>
    let (passed, fails, error) :=
      match ev a with
      | .ok p => (p, if p then [] else [a.id], none)
      | .error e => (false, [a.id ++ ": " ++ e], some e)
    let (restPassed, restFails, restDet) := evalAssertions ev rest
    (passed && restPassed, fails ++ restFails,
      build_detailed_assertion a passed error :: restDet)

/-- One iteration of a simplified test case
(`runner.rs: run_simplified_iteration_with_progress`), for a successful
invocation. -/
def run_simplified_iteration (test : SimplifiedTestCase)
    (assertions golden_assertions : List Assertion) (iteration : Nat)
    (r : ExecutionResult) (ev : EvalOutcome) :
    SimplifiedIterationResult × DetailedIterationResult :=
  let output_hash := compute_output_hash r.result
  let (assertion_passed, failures, detailed_assertions) := evalAssertions ev assertions
  let (golden_all, golden_failures, detailed_golden) := evalAssertions ev golden_assertions
  let golden_passed := if golden_assertions.isEmpty then none else some golden_all
  ({ test_id := test.id, iteration, output_text := r.result, output_hash,
     called_tools := r.called_tools, assertion_passed, golden_passed, failures,
     golden_failures, latency_ms := r.latency_ms },
   { iteration, passed := assertion_passed, latency_ms := r.latency_ms,
     output := truncate_utf8 r.result MAX_OUTPUT_CHARS, output_hash,
     called_tools := r.called_tools, assertions := detailed_assertions,
     golden_assertions := detailed_golden })

/-- Failed-iteration records built when the invocation errors
(`runner.rs: run_simplified_test_case_with_progress`, error arm): a failed
iteration with empty output and hash, whose single synthetic assertion
record describes the execution error. -/
def errorIteration (test : SimplifiedTestCase) (i : Nat) (msg : String) :
    SimplifiedIterationResult × DetailedIterationResult :=
  ({ test_id := test.id, iteration := i, output_text := [], output_hash := "",
     called_tools := [], assertion_passed := false, golden_passed := none,
     failures := [msg], golden_failures := [], latency_ms := 0 },
   { iteration := i, passed := false, latency_ms := 0, output := [],
     output_hash := "", called_tools := [],
     assertions := [{ name := "execution", desc := some "Claude execution",
                      assertion_type := "execution", pattern := none,
                      passed := false, error := some msg }],
     golden_assertions := [] })

/-- The body of the iteration loop: run the iteration, demoting an
invocation error to a failed iteration. -/
def iterStep (test : SimplifiedTestCase) (assertions golden_assertions : List Assertion)
    (env : Nat → IterationEnv) (i : Nat) :
    SimplifiedIterationResult × DetailedIterationResult :=
  match env i with
  | .ok (r, ev) => run_simplified_iteration test assertions golden_assertions i r ev
  | .error msg => errorIteration test i msg

/-- The iteration loop `for i in 1..=iterations`, collecting results in
order. -/
def runIterations (test : SimplifiedTestCase) (assertions golden_assertions : List Assertion)
    (env : Nat → IterationEnv) :
    Nat → List (SimplifiedIterationResult × DetailedIterationResult)
  | 0 => []
  | n + 1 => runIterations test assertions golden_assertions env n ++
      [iterStep test assertions golden_assertions env (n + 1)]

/-- Model of `Vec::dedup`: remove consecutive duplicates. -/
def dedupAdj : List String → List String
  | [] => []
  | [a] => [a]
  | a :: b :: rest =>
    if a = b then dedupAdj (a :: rest) else a :: dedupAdj (b :: rest)
termination_by l => l.length
decreasing_by
  all_goals simp

/-- All iterations of one simplified test case
(`runner.rs: run_simplified_test_case_with_progress`): runs
`iterations` iterations (an invocation error becomes a failed iteration and
the loop continues), then computes the summary: pass count, saturating fail
count, pass rate, threshold verdict, per-iteration failure messages and the
sorted deduplicated union of called tools. -/
def run_simplified_test_case (test : SimplifiedTestCase)
    (assertions golden_assertions : List Assertion) (skill : SkillDir)
    (env : Nat → IterationEnv) : SimplifiedTestResult × DetailedTestResult :=
  let iterations := test.iterations.getD skill.config.iterations
  let steps := runIterations test assertions golden_assertions env iterations
  let results := steps.map Prod.fst
  let all_failures := results.filterMap fun r =>
    if r.failures.isEmpty then none
    else some ("iteration " ++ toString r.iteration ++ ": " ++
      String.intercalate ", " r.failures)
  let all_golden_failures := results.filterMap fun r =>
    if r.golden_failures.isEmpty then none
    else some ("iteration " ++ toString r.iteration ++ ": " ++
      String.intercalate ", " r.golden_failures)
  let passed := (results.filter fun r => r.assertion_passed).length
  let failed := iterations - passed
  let pass_rate : ℚ := if 0 < iterations then ((passed : ℚ) / (iterations : ℚ)) * 100 else 0
  let verdict := if (skill.config.threshold : ℚ) ≤ pass_rate then Verdict.Pass else Verdict.Fail
  let all_called_tools :=
    dedupAdj (((results.map fun r => r.called_tools).join).mergeSort
      (fun a b => decide (a ≤ b)))
  let summary : SimplifiedTestResult :=
    { id := test.id, iterations, passed, failed, pass_rate, verdict,
      failures := all_failures, golden_failures := all_golden_failures,
      called_tools := all_called_tools }
  (summary,
   { name := test.id, desc := test.desc, prompt := test.prompt,
     iterations := steps.map Prod.snd, summary })

/-! ## Aggregation of skill results (runner.rs phase 3, main.rs collector) -/

/-- Result of running all tests for one skill (`types.rs: SkillTestResult`). -/
structure SkillTestResult where
  name : String
  path : Path
  tests : List SimplifiedTestResult
  verdict : Verdict
deriving DecidableEq, Repr

/-- Summary counts (`types.rs: SkillTestSummary`). -/
structure SkillTestSummary where
  total_skills : Nat
  passed_skills : Nat
  failed_skills : Nat
  total_tests : Nat
  passed_tests : Nat
  failed_tests : Nat
deriving DecidableEq, Repr

/-- Phase-3 grouping (`runner.rs: run_all_skill_tests_with_progress`,
lines 1265-1297): completed `(skill name, test result)` pairs, in completion
order, are pushed into a map keyed by skill name; each skill dir in input
order then removes its entry (an absent entry yields the empty list) and a
skill passes iff all of its tests passed. -/
def groupBySkill : List SkillDir → List (String × SimplifiedTestResult) → List SkillTestResult
  | [], _ => []
  | sd :: rest, completed =>
    let tests := (completed.filter fun p => p.1 == sd.name).map Prod.snd
    let remaining := completed.filter fun p => !(p.1 == sd.name)
    let all_passed := tests.all fun t => t.verdict == Verdict.Pass
    { name := sd.name, path := sd.path, tests,
      verdict := if all_passed then Verdict.Pass else Verdict.Fail } ::
      groupBySkill rest remaining

/-- Sorting by skill name and summary counting
(`runner.rs: run_all_skill_tests_with_progress`, lines 1309-1336). -/
def run_all_aggregate (skill_dirs : List SkillDir)
    (completed : List (String × SimplifiedTestResult)) :
    List SkillTestResult × SkillTestSummary :=
  let results := (groupBySkill skill_dirs completed).mergeSort
    (fun a b => decide (a.name ≤ b.name))
  let total_skills := results.length
  let passed_skills := (results.filter fun r => r.verdict == Verdict.Pass).length
  let failed_skills := total_skills - passed_skills
  let total_tests := (results.map fun r => r.tests.length).sum
  let passed_tests := (((results.map fun r => r.tests).join).filter
    fun t => t.verdict == Verdict.Pass).length
  let failed_tests := total_tests - passed_tests
  (results,
   { total_skills, passed_skills, failed_skills, total_tests, passed_tests, failed_tests })

/-- Per-skill detailed result in the execution report (`types.rs: SkillResult`). -/
structure SkillResult where
  skill_name : String
  skill_path : Path
  tests : List DetailedTestResult
  verdict : Verdict
  error : Option String
deriving DecidableEq, Repr

/-- The execution report (`types.rs: ExecutionReport`). -/
structure ExecutionReport where
  timestamp : String
  skills : List SkillResult
  summary : SkillTestSummary
deriving DecidableEq, Repr

/-- The detailed-result collector, sorted
(`main.rs: DetailedCollector::into_sorted_results`): the detailed test
results collected for one skill from `TestCompleted` events in completion
order, sorted by test name. -/
def into_sorted_results (collected : List (String × DetailedTestResult))
    (skill_name : String) : List DetailedTestResult :=
  ((collected.filter fun p => p.1 == skill_name).map Prod.snd).mergeSort
    (fun a b => decide (a.name ≤ b.name))

/-- Build the execution report (`main.rs: build_execution_report`): one
`SkillResult` per aggregated skill result, in their (sorted) order, each
with its sorted detailed tests. -/
def build_execution_report (timestamp : String) (results : List SkillTestResult)
    (summary : SkillTestSummary) (collected : List (String × DetailedTestResult)) :
    ExecutionReport :=
  { timestamp,
    skills := results.map fun r =>
      { skill_name := r.name, skill_path := r.path,
        tests := into_sorted_results collected r.name,
        verdict := r.verdict, error := none },
    summary }

/-! ## Test-file loader, scenarios shape (loader.rs, types.rs) -/

/-- Loader errors (`loader.rs: LoaderError`), with IO and YAML errors
carrying their rendered message. -/
inductive LoaderError
  | IoError (msg : String)
  | Yaml (msg : String)
  | Validation (msg : String)
  | DuplicateAssertionId (id test_id first_source second_source : String)
  | CircularReference (path : Path)
  | FileRefOutsideSkillTests (path : Path)
  | FileNotFound (path : Path)
  | UndefinedAssertionRef (name scenario : String)
  | EmptyPrompt (scenario : String)
  | DuplicateAssertionIdInScenario (id scenario : String)
deriving DecidableEq, Repr

/-- Named-assertion definition without its id (`types.rs: AssertionDef`);
the payloads match the corresponding assertion payloads minus `id`. -/
inductive AssertionDef
  | Regex (desc : Option String) (pattern : String) (expect : PatternExpect)
  | Contains (desc : Option String) (pattern : String) (expect : PatternExpect)
  | LineCount (desc : Option String) (min max : Option Nat)
  | Exec (desc : Option String) (command : String) (language : Option String)
      (timeout_ms : Nat) (expect : ExecExpect)
  | LlmEval (desc : Option String) (pattern : String) (expect : LlmEvalExpect)
      (timeout_ms : Nat) (json_schema : Option String)
  | ToolCalled (desc : Option String) (pattern : String) (expect : PatternExpect)
deriving DecidableEq, Repr

/-- Attach a name as the assertion's id (`types.rs: AssertionDef::to_assertion`). -/
def AssertionDef.to_assertion (d : AssertionDef) (name : String) : Assertion :=
  match d with
  | .Regex desc pattern expect => .Regex ⟨name, desc, pattern, expect⟩
  | .Contains desc pattern expect => .Contains ⟨name, desc, pattern, expect⟩
  | .LineCount desc min max => .LineCount ⟨name, desc, min, max⟩
  | .Exec desc command language timeout_ms expect =>
      .Exec ⟨name, desc, command, language, timeout_ms, expect⟩
  | .LlmEval desc pattern expect timeout_ms json_schema =>
      .LlmEval ⟨name, desc, pattern, expect, timeout_ms, json_schema⟩
  | .ToolCalled desc pattern expect => .ToolCalled ⟨name, desc, pattern, expect⟩

/-- Assertion reference inside a scenario (`types.rs: AssertionRef`). -/
inductive AssertionRef
  | Name (name : String)
  | Inline (a : Assertion)
deriving DecidableEq, Repr

/-- A scenario (`types.rs: Scenario`). -/
structure Scenario where
  desc : Option String
  prompt : String
  iterations : Option Nat
  assertions : List AssertionRef
  golden_assertions : List AssertionRef
deriving DecidableEq, Repr

/-- A scenarios-shape test file (`types.rs: TestFile`); the two hash maps
are modelled as association lists in iteration order. -/
structure TestFile where
  desc : Option String
  assertions : List (String × AssertionDef)
  scenarios : List (String × Scenario)
deriving DecidableEq, Repr

/-- A resolved scenario (`loader.rs: ResolvedScenario`). -/
structure ResolvedScenario where
  name : String
  desc : Option String
  prompt : String
  iterations : Option Nat
  assertions : List Assertion
  golden_assertions : List Assertion
deriving DecidableEq, Repr

/-- The loop of `loader.rs: resolve_assertion_refs_with_dup_check`: resolve
each reference (a name against the named map, an inline assertion as
itself), failing on an unknown name, and reject an id already seen in this
list. -/
def resolveRefsAux (named : List (String × Assertion)) (scenario_name : String) :
    List AssertionRef → List String → Except LoaderError (List Assertion)
  | [], _ => .ok []
  | r :: rest, seen =>
    match (match r with
      | AssertionRef.Name n =>
        match named.lookup n with
        | some a => Except.ok a
        | none => Except.error (LoaderError.UndefinedAssertionRef n scenario_name)
      | AssertionRef.Inline a => Except.ok a) with
    | .error e => .error e
    | .ok a =>
      if seen.contains a.id then
        .error (.DuplicateAssertionIdInScenario a.id scenario_name)
      else
        match resolveRefsAux named scenario_name rest (a.id :: seen) with
        | .error e => .error e
        | .ok as => .ok (a :: as)

/-- Resolve one reference list with duplicate checking
(`loader.rs: resolve_assertion_refs_with_dup_check`); the set of seen ids
starts empty for each list. -/
def resolve_assertion_refs_with_dup_check (refs : List AssertionRef)
    (named : List (String × Assertion)) (scenario_name : String) :
    Except LoaderError (List Assertion) :=
  resolveRefsAux named scenario_name refs []

/-- The ids a reference list resolves to, ignoring the duplicate check
(`none` when a name is undefined); used to state when the duplicate check
fires. -/
def resolvedIds (named : List (String × Assertion)) : List AssertionRef → Option (List String)
  | [] => some []
  | AssertionRef.Name n :: rest =>
    match named.lookup n with
    | some a => (resolvedIds named rest).map (fun ids => a.id :: ids)
    | none => none
  | AssertionRef.Inline a :: rest => (resolvedIds named rest).map (fun ids => a.id :: ids)

/-- Rust `str::trim`: drop whitespace from both ends. -/
def strTrim (s : String) : String :=
  ⟨((s.data.dropWhile Char.isWhitespace).reverse.dropWhile Char.isWhitespace).reverse⟩

/-- Resolve one scenario (the loop body of `loader.rs: resolve_test_file`):
reject blank prompts, then resolve the required and the golden list, each
with its own duplicate check. -/
def resolveScenario (named : List (String × Assertion)) (name : String)
    (scenario : Scenario) : Except LoaderError ResolvedScenario :=
  if strTrim scenario.prompt = "" then .error (.EmptyPrompt name)
  else do
    let assertions ← resolve_assertion_refs_with_dup_check scenario.assertions named name
    let golden ← resolve_assertion_refs_with_dup_check scenario.golden_assertions named name
    .ok { name, desc := scenario.desc, prompt := scenario.prompt,
          iterations := scenario.iterations, assertions,
          golden_assertions := golden }

/-- Resolve a scenarios-shape test file (`loader.rs: resolve_test_file`):
build the named-assertion map, resolve every scenario, sort by name. -/
def resolve_test_file (tf : TestFile) : Except LoaderError (List ResolvedScenario) := do
  let named := tf.assertions.map fun p => (p.1, p.2.to_assertion p.1)
  let resolved ← tf.scenarios.mapM fun p => resolveScenario named p.1 p.2
  .ok (resolved.mergeSort (fun a b => decide (a.name ≤ b.name)))

/-- Convert resolved scenarios to the runner's tuple form
(`loader.rs: load_and_resolve_testfile_format`). -/
def load_and_resolve_testfile_format (tf : TestFile) :
    Except LoaderError (List (SimplifiedTestCase × List Assertion × List Assertion)) := do
  let scenarios ← resolve_test_file tf
  .ok (scenarios.map fun s =>
    ({ id := s.name, desc := s.desc, prompt := s.prompt, iterations := s.iterations,
       assertions := [], golden_assertions := [] },
     s.assertions, s.golden_assertions))

/-! ## Test-file loader, list shape with file references (loader.rs 188-293) -/

/-- Abstract filesystem for file-reference resolution: `canonicalize`
returns the canonical path of an existing path (`none` models a failing
`Path::canonicalize`), `read` models reading and YAML-parsing a referenced
assertion file. -/
structure FileSys where
  canonicalize : Path → Option Path
  read : Path → Except LoaderError (List Assertion)

/-- Rendered form of a path (`Path::display`). -/
def pathDisplay (p : Path) : String := String.intercalate "/" p

/-- The duplicate-id check over the assertions loaded from one referenced
file (`loader.rs: resolve_assertions_inner`, inner loop over
`file_assertions`). -/
def addFileAssertions (test_id source : String) :
    List Assertion → List String → Except LoaderError (List Assertion × List String)
  | [], seen => .ok ([], seen)
  | a :: rest, seen =>
    if seen.contains a.id then
      .error (.DuplicateAssertionId a.id test_id "previous assertion" source)
    else
      match addFileAssertions test_id source rest (a.id :: seen) with
      | .error e => .error e
      | .ok (as, seen2) => .ok (a :: as, seen2)

/-- The loop over the paths of one file reference
(`loader.rs: resolve_assertions_inner`, `for path_str in paths`): join the
relative path onto the referencing file's directory, canonicalize (failure
is `FileNotFound`), require the canonical skill-tests directory to be a path
prefix (else `FileRefOutsideSkillTests`), reject a canonical path already
visited (else `CircularReference`), then read the file and check ids. -/
def resolveFilePaths (fs : FileSys) (skill_tests_dir : Path) (test_id : String)
    (base_dir : Path) :
    List Path → List String → List Path →
      Except LoaderError (List Assertion × List String × List Path)
  | [], seen, visited => .ok ([], seen, visited)
  | p :: rest, seen, visited =>
    let file_path := base_dir ++ p
    match fs.canonicalize file_path with
    | none => .error (.FileNotFound file_path)
    | some canonical =>
      let skill_tests_canonical := (fs.canonicalize skill_tests_dir).getD skill_tests_dir
      if !(skill_tests_canonical.isPrefixOf canonical) then
        .error (.FileRefOutsideSkillTests file_path)
      else if visited.contains canonical then
        .error (.CircularReference canonical)
      else
        match fs.read canonical with
        | .error e => .error e
        | .ok file_assertions =>
          match addFileAssertions test_id (pathDisplay canonical) file_assertions seen with
          | .error e => .error e
          | .ok (as, seen2) =>
            match resolveFilePaths fs skill_tests_dir test_id base_dir rest seen2
                (canonical :: visited) with
            | .error e => .error e
            | .ok (rest_as, seen3, visited3) => .ok (as ++ rest_as, seen3, visited3)

/-- The loop over one assertion list (`loader.rs: resolve_assertions_inner`,
outer loop): inline assertions are duplicate-checked and kept, file
references are expanded by `resolveFilePaths`. -/
def resolveAOFList (fs : FileSys) (skill_tests_dir : Path) (test_id : String)
    (base_dir : Path) :
    List AssertionOrFile → List String → List Path →
      Except LoaderError (List Assertion × List String × List Path)
  | [], seen, visited => .ok ([], seen, visited)
  | AssertionOrFile.Inline a :: rest, seen, visited =>
    if seen.contains a.id then
      .error (.DuplicateAssertionId a.id test_id "previous assertion" "inline assertion")
    else
      match resolveAOFList fs skill_tests_dir test_id base_dir rest (a.id :: seen) visited with
      | .error e => .error e
      | .ok (as, seen2, visited2) => .ok (a :: as, seen2, visited2)
  | AssertionOrFile.FileRef f :: rest, seen, visited =>
    let paths := match f with
      | FileRefValue.Single p => [p]
      | FileRefValue.Multiple ps => ps
    match resolveFilePaths fs skill_tests_dir test_id base_dir paths seen visited with
    | .error e => .error e
    | .ok (as, seen2, visited2) =>
      match resolveAOFList fs skill_tests_dir test_id base_dir rest seen2 visited2 with
      | .error e => .error e
      | .ok (rest_as, seen3, visited3) => .ok (as ++ rest_as, seen3, visited3)

/-- Resolve one assertion list of a list-shape test case
(`loader.rs: resolve_assertions`): fresh seen-id and visited-file sets per
list; the base directory is the parent of the referencing file. -/
def resolve_assertions (fs : FileSys) (assertions : List AssertionOrFile)
    (base_path skill_tests_dir : Path) (test_id : String) :
    Except LoaderError (List Assertion) :=
  match resolveAOFList fs skill_tests_dir test_id base_path.dropLast assertions [] [] with
  | .error e => .error e
  | .ok (as, _, _) => .ok as

/-- Resolution of one list-shape test case (the loop body of
`loader.rs: load_and_resolve_test_case`): the required list and the golden
list are resolved by two separate `resolve_assertions` calls. -/
def resolve_case (fs : FileSys) (test_file skill_tests_dir : Path)
    (case : SimplifiedTestCase) :
    Except LoaderError (SimplifiedTestCase × List Assertion × List Assertion) := do
  let as ← resolve_assertions fs case.assertions test_file skill_tests_dir case.id
  let gs ← resolve_assertions fs case.golden_assertions test_file skill_tests_dir case.id
  .ok (case, as, gs)

/-! ## Exec assertion temporary file (assertion.rs: evaluate_exec, codeblock.rs) -/

/-- A parsed fenced code block (`codeblock.rs: CodeBlock`). -/
structure CodeBlock where
  language : Option String
  content : List Char
deriving DecidableEq, Repr

/-- ASCII lowercase of one character, modelling `str::to_lowercase` on the
ASCII strings compared against here. -/
def asciiToLower (c : Char) : Char :=
  if c.isUpper then Char.ofNat (c.toNat + 32) else c

/-- ASCII lowercase of a string. -/
def strToLower (s : String) : String := ⟨s.data.map asciiToLower⟩

/-- File extension for a language tag (`codeblock.rs: language_to_extension`). -/
def language_to_extension (language : String) : String :=
  match strToLower language with
  | "javascript" | "js" => "js"
  | "typescript" | "ts" => "ts"
  | "python" | "py" => "py"
  | "rust" | "rs" => "rs"
  | "svelte" => "svelte"
  | "json" => "json"
  | "html" => "html"
  | "css" => "css"
  | "bash" | "sh" | "shell" => "sh"
  | _ => "txt"

/-- The temporary file name chosen by `assertion.rs: evaluate_exec`:
`exec-{hex of the first 8 SHA-256 bytes of the block content}.{extension}`.
It is a function of the block content and language only. -/
def exec_temp_file_name (block : CodeBlock) : String :=
  let ext := (block.language.map language_to_extension).getD "txt"
  let hash := String.mk (hexEncode ((sha256 (utf8Encode block.content)).take 8))
  "exec-" ++ hash ++ "." ++ ext

/-- The temporary path assigned to one evaluation instance of a block: the
instance index distinguishes concurrent evaluations, but the chosen path
does not depend on it. -/
def assignedTempPath (block : CodeBlock) (instanceIdx : Nat) : String :=
  let _ := instanceIdx
  exec_temp_file_name block

/-- Filesystem events performed by `evaluate_exec` on the temp file. -/
inductive FsEvent
  | create (p : String)
  | removeFile (p : String)
deriving DecidableEq, Repr

/-- Outcome of the spawned `command tempfile` child process. -/
inductive CmdOutcome
  | timeout
  | ioError (msg : String)
  | completed (exit_success : Bool) (stdout : List Char)
deriving DecidableEq, Repr

/-- Assertion-evaluation errors (`assertion.rs: AssertionError`). -/
inductive AssertionEvalError
  | InvalidRegex (pattern msg : String)
  | ExecFailed (msg : String)
  | ExecTimeout (ms : Nat)
  | IoError (msg : String)
  | JsonParse (msg : String)
  | JsonSchemaValidation (msg : String)
deriving DecidableEq, Repr

/-- Model of `assertion.rs: evaluate_exec`, with the regex-based block
extraction, the temp-file write and the child process supplied as outcomes.
Returns the evaluation result paired with the filesystem events on the temp
file, in order.  The temp file is removed before the command outcome is
inspected; a failed write returns before any removal. -/
def evaluate_exec (extracted : Option CodeBlock) (write_result : Except String Unit)
    (cmd : CmdOutcome) (a : ExecAssertion) :
    Except AssertionEvalError Bool × List FsEvent :=
  match extracted with
  | none => (.error (.ExecFailed "no matching code block found"), [])
  | some block =>
    let temp_path := exec_temp_file_name block
    match write_result with
    | .error e => (.error (.IoError e), [.create temp_path])
    | .ok _ =>
      let events := [FsEvent.create temp_path, FsEvent.removeFile temp_path]
      match cmd with
      | .timeout => (.error (.ExecTimeout a.timeout_ms), events)
      | .ioError e => (.error (.ExecFailed e), events)
      | .completed exit_success stdout =>
        match a.expect with
        | .ExitCodeZero => (.ok exit_success, events)
        | .OutputContains s => (.ok (decide (s.data <:+: stdout)), events)

/-! ## Process entry point (crates/skill-test/src/main.rs, report.rs, config.rs) -/

/-- Output format (`report.rs: ReportFormat`). -/
inductive ReportFormat
  | Table
  | Json
deriving DecidableEq, Repr

/-- Parse the output format (`report.rs: impl FromStr for ReportFormat`). -/
def report_format_from_str (s : String) : Except String ReportFormat :=
  match strToLower s with
  | "table" => .ok .Table
  | "json" => .ok .Json
  | _ => .error ("unknown format: " ++ s ++ ". Valid formats: table, json")

/-- Parse the hook flag (`main.rs: parse_hook_type`). -/
def parse_hook_type (s : String) : Except String HookType :=
  match s with
  | "none" => .ok .None
  | "simple" => .ok .Simple
  | "forced" => .ok .Forced
  | "custom" => .ok .Custom
  | _ => .error ("Invalid hook type: " ++ s ++ ". Valid values: none, simple, forced, custom")

/-- CLI override record (`config.rs: ConfigOverrides`). -/
structure ConfigOverrides where
  model : Option String
  timeout : Option Nat
  iterations : Option Nat
  threshold : Option Nat
  hook : Option HookType
  hook_path : Option Path
  strict : Option Bool
deriving DecidableEq, Repr

/-- Field-wise CLI-wins override application (`config.rs: apply_overrides`). -/
def apply_overrides (config : SkillTestConfig) (o : ConfigOverrides) : SkillTestConfig :=
  { config with
    model := o.model.getD config.model
    timeout := o.timeout.getD config.timeout
    iterations := o.iterations.getD config.iterations
    threshold := o.threshold.getD config.threshold
    hook := o.hook.getD config.hook
    hook_path := match o.hook_path with
      | some p => some p
      | none => config.hook_path
    strict := o.strict.getD config.strict }

/-- Exit codes (`main.rs: mod exit_code`). -/
def exitSUCCESS : Nat := 0

/-- Exit code for a skill failing its threshold. -/
def exitTHRESHOLD_NOT_MET : Nat := 1

/-- Exit code for a configuration error. -/
def exitCONFIG_ERROR : Nat := 2

/-- Exit code for an execution error. -/
def exitEXECUTION_ERROR : Nat := 3

/-- CLI options relevant to control flow (`main.rs: Cli`). -/
structure Cli where
  iterations : Option Nat
  hook : Option String
  hook_path : Option Path
  model : Option String
  timeout : Option Nat
  threshold : Option Nat
  strict : Bool
  format : String
  filter : Option String
  no_error_log : Bool
deriving DecidableEq, Repr

/-- Substring test modelling Rust `str::contains`. -/
def strContains (s pat : String) : Bool := decide (pat.data <:+: s.data)

/-- Phase 1 of `runner.rs: run_all_skill_tests_with_progress`: per skill,
resolve every (already discovered and parsed) test file, flatten all test
cases, apply the id-substring filter; any loader error aborts the whole
run. -/
def run_all_load (skills : List (SkillDir × List TestFile)) (filter : Option String) :
    Except LoaderError (List (SkillDir × SimplifiedTestCase × List Assertion × List Assertion)) :=
  match skills with
  | [] => .ok []
  | (sd, files) :: rest => do
    let perFile ← files.mapM load_and_resolve_testfile_format
    let items := perFile.join.filterMap fun it =>
      match filter with
      | some f => if strContains it.1.id f then some (sd, it) else none
      | none => some (sd, it)
    let restItems ← run_all_load rest filter
    .ok (items ++ restItems)

/-- Phases 1-3 of `runner.rs: run_all_skill_tests_with_progress`
(sequential arm): load every test case, run each with its iteration
environment, then group, sort and summarize. -/
def run_all_skill_tests (skills : List (SkillDir × List TestFile))
    (filter : Option String) (env : Nat → Nat → IterationEnv) :
    Except LoaderError (List SkillTestResult × SkillTestSummary) := do
  let items ← run_all_load skills filter
  let completed := items.enum.map fun p =>
    (p.2.1.name, (run_simplified_test_case p.2.2.1 p.2.2.2.1 p.2.2.2.2 p.2.1 (env p.1)).1)
  .ok (run_all_aggregate (skills.map Prod.fst) completed)

/-- Tests of a single skill (`runner.rs: run_skill_tests_with_progress`,
sequential arm): with no discovered test files the skill result is an empty
test list with verdict `Pass`; otherwise every test case is resolved and
run, and the skill passes iff every test passed. -/
def run_skill_tests (skill : SkillDir) (test_files : List TestFile)
    (filter : Option String) (env : Nat → Nat → IterationEnv) :
    Except LoaderError SkillTestResult :=
  if test_files.isEmpty then
    .ok { name := skill.name, path := skill.path, tests := [], verdict := Verdict.Pass }
  else do
    let perFile ← test_files.mapM load_and_resolve_testfile_format
    let items := perFile.join.filter fun it =>
      match filter with
      | some f => strContains it.1.id f
      | none => true
    let results := items.enum.map fun p =>
      (run_simplified_test_case p.2.1 p.2.2.1 p.2.2.2 skill (env p.1)).1
    let all_passed := results.all fun r => r.verdict == Verdict.Pass
    .ok { name := skill.name, path := skill.path, tests := results,
          verdict := if all_passed then Verdict.Pass else Verdict.Fail }

/-- Hook parsing step of `main.rs: run_command`. -/
def hook_parse (cli : Cli) : Except String (Option HookType) :=
  match cli.hook with
  | some h => (parse_hook_type h).map some
  | none => .ok none

/-- The override record built by `main.rs: run_command`. -/
def cli_overrides (cli : Cli) (hook_type : Option HookType) : ConfigOverrides :=
  { model := cli.model, timeout := cli.timeout, iterations := cli.iterations,
    threshold := cli.threshold, hook := hook_type, hook_path := cli.hook_path,
    strict := if cli.strict then some true else none }

/-- Whether `main.rs: run_command` exits early with `CONFIG_ERROR`:
invalid format, failed path resolution or skill detection, no skill
directories, invalid hook value, `custom` hook without a path, or a hook
path with a non-custom hook. -/
def config_error (cli : Cli) (resolve_res : Except String (List Path))
    (detect_res : Except String (List SkillDir)) : Bool :=
  !(report_format_from_str cli.format).isOk ||
  !resolve_res.isOk ||
  (match detect_res with
   | .error _ => true
   | .ok dirs => dirs.isEmpty) ||
  (match hook_parse cli with
   | .error _ => true
   | .ok ht =>
     (ht == some HookType.Custom && cli.hook_path.isNone) ||
     (cli.hook_path.isSome && ht != some HookType.Custom))

/-- The entry point (`main.rs: run_command`), returning the process exit
code.  The IO outcomes (path resolution, skill detection, the discovered
and parsed test files of each skill, and each scheduled test's iteration
environment) are supplied as arguments. -/
def run_command (cli : Cli) (resolve_res : Except String (List Path))
    (detect_res : Except String (List SkillDir)) (files_of : SkillDir → List TestFile)
    (env : Nat → Nat → IterationEnv) : Nat :=
  match report_format_from_str cli.format with
  | .error _ => exitCONFIG_ERROR
  | .ok _ =>
    match resolve_res with
    | .error _ => exitCONFIG_ERROR
    | .ok _ =>
      match detect_res with
      | .error _ => exitCONFIG_ERROR
      | .ok skill_dirs =>
        if skill_dirs.isEmpty then exitCONFIG_ERROR
        else
          match hook_parse cli with
          | .error _ => exitCONFIG_ERROR
          | .ok hook_type =>
            if hook_type == some HookType.Custom && cli.hook_path.isNone then
              exitCONFIG_ERROR
            else if cli.hook_path.isSome && hook_type != some HookType.Custom then
              exitCONFIG_ERROR
            else
              let overridden := skill_dirs.map fun sd =>
                { sd with config := apply_overrides sd.config (cli_overrides cli hook_type) }
              match run_all_skill_tests (overridden.map fun sd => (sd, files_of sd))
                  cli.filter env with
              | .error _ => exitEXECUTION_ERROR
              | .ok (results, summary) =>
                if results.isEmpty then exitSUCCESS
                else if summary.failed_skills == 0 then exitSUCCESS
                else exitTHRESHOLD_NOT_MET

/-! ## Sample values used by concrete witnesses -/

/-- A sample skill directory with the default configuration. -/
def sampleSkill : SkillDir :=
  { path := ["skills", "sample"], name := "sample", config := SkillTestConfig.default }

/-- A second sample skill directory. -/
def sampleSkillB : SkillDir :=
  { path := ["skills", "beta"], name := "beta", config := SkillTestConfig.default }

/-- A sample test case without assertions. -/
def sampleCase : SimplifiedTestCase :=
  { id := "case-1", desc := none, prompt := "say hello", iterations := some 1,
    assertions := [], golden_assertions := [] }

/-- A minimal per-test summary used in witness inputs. -/
def sampleTestResult (id : String) (v : Verdict) : SimplifiedTestResult :=
  { id, iterations := 1, passed := 1, failed := 0, pass_rate := 100, verdict := v,
    failures := [], golden_failures := [], called_tools := [] }

/-- A minimal detailed test record used in witness inputs. -/
def sampleDetailed (name : String) : DetailedTestResult :=
  { name, desc := none, prompt := "p", iterations := [],
    summary := sampleTestResult name Verdict.Pass }


/-- A sample filesystem for file-reference resolution: the skill-tests
directory and one shared assertion file inside it canonicalize to
themselves; one file outside the directory also exists. -/
def fsC8 : FileSys :=
  { canonicalize := fun p =>
      if p = ["skill-tests", "shared.yaml"] then some ["skill-tests", "shared.yaml"]
      else if p = ["skill-tests"] then some ["skill-tests"]
      else if p = ["outside.yaml"] then some ["outside.yaml"]
      else none,
    read := fun p =>
      if p = ["skill-tests", "shared.yaml"] then
        Except.ok [Assertion.Contains ⟨"c1", none, "hi", PatternExpect.Present⟩]
      else Except.error (LoaderError.FileNotFound p) }

/-- A sample list-shape test case whose required and golden lists reference
the same assertion file. -/
def caseC8 : SimplifiedTestCase :=
  { id := "t", desc := none, prompt := "p", iterations := none,
    assertions := [AssertionOrFile.FileRef (FileRefValue.Single ["shared.yaml"])],
    golden_assertions := [AssertionOrFile.FileRef (FileRefValue.Single ["shared.yaml"])] }

-- THEOREMS-SECTION-MARKER

theorem byteLen_cons (c : Char) (cs : List Char) :
    byteLen (c :: cs) = c.utf8Size + byteLen cs := by
  simp [byteLen]

/-- Taking exactly the byte length of a character prefix always succeeds and
returns that prefix: every such index is a character boundary. -/
theorem byteTake_byteLen_take (s : List Char) (k : Nat) :
    byteTake s (byteLen (s.take k)) = some (s.take k) := by
  induction s generalizing k with
  | nil => simp [byteTake, byteLen]
  | cons c cs ih =>
    cases k with
    | zero => simp [byteTake, byteLen]
    | succ k =>
      have hsz : 1 ≤ c.utf8Size := c.utf8Size_pos
      have hlen : byteLen (c :: cs |>.take (k + 1)) = c.utf8Size + byteLen (cs.take k) := by
        simp [List.take, byteLen_cons]
      rw [hlen]
      have hpos : 0 < c.utf8Size + byteLen (cs.take k) := by omega
      obtain ⟨m, hm⟩ : ∃ m, c.utf8Size + byteLen (cs.take k) = m + 1 :=
        ⟨c.utf8Size + byteLen (cs.take k) - 1, by omega⟩
      rw [hm, byteTake]
      have hle : c.utf8Size ≤ m + 1 := by omega
      have hsub : m + 1 - c.utf8Size = byteLen (cs.take k) := by omega
      simp only [hle, if_pos, hsub, ih]
      simp [List.take]

theorem charIndicesAux_shift (s : List Char) (i : Nat) :
    charIndicesAux s i = (charIndices s).map fun p => (p.1 + i, p.2) := by
  induction s generalizing i with
  | nil => simp [charIndicesAux, charIndices]
  | cons c cs ih =>
    simp only [charIndicesAux, charIndices, List.map_cons, Nat.zero_add]
    rw [ih (i + c.utf8Size), ih c.utf8Size, List.map_map]
    congr 1
    apply List.map_congr_left
    intro p _
    simp only [Function.comp, Prod.mk.injEq, and_true]
    omega

/-- The byte offset stored for the `k`-th character is the byte length of the
first `k` characters. -/
theorem charIndices_get? (s : List Char) (k : Nat) (hk : k < s.length) :
    (charIndices s).get? k = some (byteLen (s.take k), s.get ⟨k, hk⟩) := by
  induction s generalizing k with
  | nil => simp at hk
  | cons c cs ih =>
    cases k with
    | zero => simp [charIndices, charIndicesAux, byteLen]
    | succ k =>
      have hk2 : k < cs.length := by simpa using hk
      simp only [charIndices, charIndicesAux, List.get?_cons_succ]
      rw [charIndicesAux_shift]
      rw [List.get?_map, ih k hk2]
      simp [byteLen_cons, Nat.add_comm]

theorem charIndices_length (s : List Char) : (charIndices s).length = s.length := by
  suffices h : ∀ i, (charIndicesAux s i).length = s.length from h 0
  induction s with
  | nil => intro i; rfl
  | cons c cs ih => intro i; simp [charIndicesAux, ih]

/-- Characterization of `truncate_utf8`: the first `n` characters, with the
marker appended exactly when the input is longer than `n` characters. -/
theorem truncate_utf8_eq (s : List Char) (n : Nat) :
    truncate_utf8 s n =
      if s.length ≤ n then s else s.take n ++ ("... [truncated]".data) := by
  by_cases h : s.length ≤ n
  · simp [truncate_utf8, List.isEmpty_iff, List.drop_eq_nil_iff, h,
      List.take_of_length_le h]
  · have hne : ¬ s.drop n = [] := by
      rw [List.drop_eq_nil_iff]
      omega
    simp [truncate_utf8, List.isEmpty_iff, hne, h]

theorem getLast?_cons_of_some {α : Type} {l : List α} {a y : α}
    (h : l.getLast? = some y) : (a :: l).getLast? = some y := by
  cases l with
  | nil => simp at h
  | cons b m =>
    rw [List.getLast?_cons_cons]
    exact h

/-- The byte index at which `truncate_string` slices is always the byte
length of some character prefix of the input, i.e. a character boundary. -/
theorem truncate_string_boundary (s : List Char) (n : Nat) :
    ∃ k, (match ((charIndices s).takeWhile fun p => p.1 < n).getLast? with
      | some (i, c) => i + c.utf8Size
      | none => 0) = byteLen (s.take k) := by
  induction s generalizing n with
  | nil => exact ⟨0, by simp [charIndices, charIndicesAux, byteLen]⟩
  | cons c cs ih =>
    by_cases hn : 0 < n
    · have hshift : charIndices (c :: cs) =
          (0, c) :: (charIndices cs).map (fun p => (p.1 + c.utf8Size, p.2)) := by
        show (0, c) :: charIndicesAux cs (0 + c.utf8Size) = _
        rw [Nat.zero_add, charIndicesAux_shift]
      have hpred : ((fun (p : Nat × Char) => decide (p.1 < n)) ∘
            (fun p => (p.1 + c.utf8Size, p.2))) =
          fun (p : Nat × Char) => decide (p.1 < n - c.utf8Size) := by
        funext p
        simp only [Function.comp]
        rw [decide_eq_decide]
        omega
      rw [hshift]
      rw [show ((0, c) :: (charIndices cs).map fun p => (p.1 + c.utf8Size, p.2)).takeWhile
            (fun p => decide (p.1 < n)) =
          (0, c) :: (((charIndices cs).map fun p => (p.1 + c.utf8Size, p.2)).takeWhile
            (fun p => decide (p.1 < n))) by simp [List.takeWhile_cons, hn]]
      rw [List.takeWhile_map, hpred]
      rcases hcase : (charIndices cs).takeWhile
          (fun (p : Nat × Char) => decide (p.1 < n - c.utf8Size)) with _ | ⟨hd, tl⟩
      · refine ⟨1, ?_⟩
        simp [byteLen_cons, byteLen]
      · obtain ⟨k, hk⟩ := ih (n - c.utf8Size)
        rw [hcase] at hk
        obtain ⟨q, hq⟩ : ∃ q, (hd :: tl).getLast? = some q := by
          cases hql : (hd :: tl).getLast? with
          | none => simp at hql
          | some q => exact ⟨q, rfl⟩
        obtain ⟨qi, qc⟩ := q
        rw [hq] at hk
        have hk2 : qi + qc.utf8Size = byteLen (cs.take k) := hk
        refine ⟨k + 1, ?_⟩
        have h1 : (((0, c) :: ((hd :: tl).map fun p => (p.1 + c.utf8Size, p.2))).getLast?) =
            some (qi + c.utf8Size, qc) := by
          apply getLast?_cons_of_some
          rw [List.getLast?_map, hq]
          rfl
        rw [h1]
        show qi + c.utf8Size + qc.utf8Size = byteLen ((c :: cs).take (k + 1))
        simp only [List.take_succ_cons, byteLen_cons]
        omega
    · have hn0 : n = 0 := by omega
      subst hn0
      exact ⟨0, rfl⟩

/-- The error-path byte-budget truncation never panics (the slice index is a
character boundary) and returns either the whole string or a character
prefix of it followed by the marker: the result is always valid UTF-8. -/
theorem truncate_string_safe (s : List Char) (n : Nat) :
    ∃ p, truncate_string s n = some p ∧
      (p = s ∨ ∃ q, q <+: s ∧ p = q ++ ("...[truncated]".data)) := by
  by_cases h : byteLen s ≤ n
  · exact ⟨s, by simp [truncate_string, h], Or.inl rfl⟩
  · obtain ⟨k, hk⟩ := truncate_string_boundary s n
    refine ⟨s.take k ++ ("...[truncated]".data), ?_,
      Or.inr ⟨s.take k, List.take_prefix k s, rfl⟩⟩
    simp only [truncate_string, if_neg h]
    rw [hk, byteTake_byteLen_take]
    rfl

/-- The preview truncation never panics and returns either the whole first
line or a character prefix of it followed by an ellipsis. -/
theorem truncate_output_safe (s : List Char) (n : Nat) :
    ∃ p, truncate_output s n = some p ∧
      (p = firstLine s ∨ ∃ q, q <+: firstLine s ∧ p = q ++ ("...".data)) := by
  by_cases h : (firstLine s).length ≤ n
  · exact ⟨firstLine s, by simp [truncate_output, h], Or.inl rfl⟩
  · have hn : n < (firstLine s).length := by omega
    refine ⟨(firstLine s).take n ++ ("...".data), ?_,
      Or.inr ⟨(firstLine s).take n, List.take_prefix n (firstLine s), rfl⟩⟩
    simp only [truncate_output, if_neg h]
    rw [charIndices_get? (firstLine s) n hn]
    simp only [Option.map_some', Option.getD_some]
    rw [byteTake_byteLen_take]
    rfl

theorem sha256_length (msg : List Nat) : (sha256 msg).length = 32 := by
  simp [sha256, be32]

theorem hexEncode_length (bs : List Nat) : (hexEncode bs).length = 2 * bs.length := by
  induction bs with
  | nil => rfl
  | cons b rest ih =>
    simp only [hexEncode, List.map_cons, List.join] at ih ⊢
    simp [hexByte, ih]
    omega

/-- The output hash always has exactly 64 characters. -/
theorem compute_output_hash_length (s : List Char) :
    (compute_output_hash s).length = 64 := by
  show (hexEncode (sha256 (utf8Encode s))).length = 64
  rw [hexEncode_length, sha256_length]

theorem be32_lt (n : Nat) : ∀ b ∈ be32 n, b < 256 := by
  intro b hb
  simp only [be32, List.mem_cons, List.not_mem_nil, or_false] at hb
  rcases hb with rfl | rfl | rfl | rfl
  all_goals exact Nat.mod_lt _ (by norm_num)

theorem hexDigit_mem (m : Nat) (hm : m < 16) :
    hexDigit m ∈ ("0123456789abcdef".data) := by
  interval_cases m <;> decide

/-- Every character of the output hash is a lowercase hexadecimal digit. -/
theorem compute_output_hash_hex (s : List Char) :
    ∀ c ∈ (compute_output_hash s).data, c ∈ ("0123456789abcdef".data) := by
  show ∀ c ∈ hexEncode (sha256 (utf8Encode s)), _
  intro c hc
  simp only [hexEncode, List.mem_join, List.mem_map] at hc
  obtain ⟨l, ⟨b, hb, rfl⟩, hcl⟩ := hc
  have hb256 : b < 256 := by
    simp only [sha256, List.mem_append] at hb
    rcases hb with ((((((h | h) | h) | h) | h) | h) | h) | h
    all_goals exact be32_lt _ _ h
  simp only [hexByte, List.mem_cons, List.not_mem_nil, or_false] at hcl
  rcases hcl with rfl | rfl
  · exact hexDigit_mem _ (by omega)
  · exact hexDigit_mem _ (Nat.mod_lt _ (by norm_num))

/-! ## Iteration-loop lemmas -/

theorem runIterations_length (test : SimplifiedTestCase) (as gs : List Assertion)
    (env : Nat → IterationEnv) (n : Nat) :
    (runIterations test as gs env n).length = n := by
  induction n with
  | zero => rfl
  | succ n ih => simp [runIterations, ih]

theorem runIterations_get? (test : SimplifiedTestCase) (as gs : List Assertion)
    (env : Nat → IterationEnv) (n i : Nat) (h : i < n) :
    (runIterations test as gs env n).get? i = some (iterStep test as gs env (i + 1)) := by
  induction n with
  | zero => omega
  | succ n ih =>
    rcases Nat.lt_or_ge i n with hin | hin
    · rw [runIterations, List.get?_append (by rw [runIterations_length]; exact hin)]
      exact ih hin
    · have hi : i = n := by omega
      subst hi
      rw [runIterations]
      have hl : (runIterations test as gs env i).length = i :=
        runIterations_length test as gs env i
      rw [show (runIterations test as gs env i ++ [iterStep test as gs env (i + 1)]).get? i =
          (runIterations test as gs env i ++ [iterStep test as gs env (i + 1)]).get?
            (runIterations test as gs env i).length by rw [hl]]
      exact List.get?_concat_length _ _

theorem mem_runIterations (test : SimplifiedTestCase) (as gs : List Assertion)
    (env : Nat → IterationEnv) (n : Nat) (x : SimplifiedIterationResult × DetailedIterationResult)
    (hx : x ∈ runIterations test as gs env n) :
    ∃ j, x = iterStep test as gs env j := by
  induction n with
  | zero => simp [runIterations] at hx
  | succ n ih =>
    rw [runIterations, List.mem_append] at hx
    rcases hx with hx | hx
    · exact ih hx
    · simp only [List.mem_singleton] at hx
      exact ⟨n + 1, hx⟩

theorem evalAssertions_passed_iff (ev : EvalOutcome) (l : List Assertion) :
    ((evalAssertions ev l).1 = true ↔
      ∀ rec ∈ (evalAssertions ev l).2.2, rec.passed = true) := by
  induction l with
  | nil => simp [evalAssertions]
  | cons a rest ih =>
    rcases hev : ev a with e | p
    · simp only [evalAssertions, hev]
      simp [build_detailed_assertion]
    · rcases p with _ | _
      · simp only [evalAssertions, hev]
        simp [build_detailed_assertion]
      · simp only [evalAssertions, hev]
        simp only [Bool.true_and, List.mem_cons]
        constructor
        · intro h rec hrec
          rcases hrec with rfl | hrec
          · rfl
          · exact (ih.mp h) rec hrec
        · intro h
          exact ih.mpr fun rec hrec => h rec (Or.inr hrec)

/-- The recorded iteration count always equals the configured iteration
count, and each recorded iteration is the step of its index. -/
theorem run_simplified_test_case_iterations (test : SimplifiedTestCase)
    (as gs : List Assertion) (skill : SkillDir) (env : Nat → IterationEnv) :
    (run_simplified_test_case test as gs skill env).2.iterations.length =
      test.iterations.getD skill.config.iterations := by
  show (List.map Prod.snd (runIterations _ _ _ _ _)).length = _
  rw [List.length_map, runIterations_length]

/-! ## Grouping and sorting lemmas -/

theorem groupBySkill_names (sds : List SkillDir)
    (c : List (String × SimplifiedTestResult)) :
    (groupBySkill sds c).map (fun r => r.name) = sds.map (fun sd => sd.name) := by
  induction sds generalizing c with
  | nil => rfl
  | cons sd rest ih => simp [groupBySkill, ih]

theorem mem_groupBySkill_verdict (sds : List SkillDir)
    (c : List (String × SimplifiedTestResult)) :
    ∀ r ∈ groupBySkill sds c,
      (r.verdict = Verdict.Pass ↔ ∀ t ∈ r.tests, t.verdict = Verdict.Pass) := by
  induction sds generalizing c with
  | nil => simp [groupBySkill]
  | cons sd rest ih =>
    intro r hr
    rw [groupBySkill, List.mem_cons] at hr
    rcases hr with rfl | hr
    · by_cases hall : ∀ t ∈ (c.filter fun p => p.1 == sd.name).map Prod.snd,
          t.verdict = Verdict.Pass
      · have : ((c.filter fun p => p.1 == sd.name).map Prod.snd).all
            (fun t => t.verdict == Verdict.Pass) = true := by
          rw [List.all_eq_true]
          intro t ht
          rw [beq_iff_eq]
          exact hall t ht
        simp only [this, if_pos]
        simpa using hall
      · have : ((c.filter fun p => p.1 == sd.name).map Prod.snd).all
            (fun t => t.verdict == Verdict.Pass) = false := by
          rw [Bool.eq_false_iff]
          intro hc
          rw [List.all_eq_true] at hc
          exact hall fun t ht => by simpa using hc t ht
        simp only [this]
        constructor
        · intro h
          cases h
        · intro h
          exact absurd (by simpa using h) hall
    · exact ih _ r hr

theorem sorted_map_key_mergeSort {α : Type} (key : α → String) (l : List α) :
    ((l.mergeSort (fun a b => decide (key a ≤ key b))).map key).Sorted (· ≤ ·) := by
  have hp : (l.mergeSort (fun a b => decide (key a ≤ key b))).Pairwise
      (fun a b => decide (key a ≤ key b) = true) := by
    apply List.sorted_mergeSort
    · intro a b c hab hbc
      simp only [decide_eq_true_iff] at hab hbc ⊢
      exact le_trans hab hbc
    · intro a b
      rcases le_total (key a) (key b) with h | h
      · simp [h]
      · simp [h]
  exact List.Pairwise.map key (fun a b h => by simpa using h) hp

theorem map_key_mergeSort_perm_eq {α : Type} (key : α → String) (l₁ l₂ : List α)
    (h : (l₁.map key).Perm (l₂.map key)) :
    (l₁.mergeSort (fun a b => decide (key a ≤ key b))).map key =
      (l₂.mergeSort (fun a b => decide (key a ≤ key b))).map key := by
  haveI : IsAntisymm String (· ≤ ·) := ⟨fun _ _ => le_antisymm⟩
  refine List.eq_of_perm_of_sorted ?_ (sorted_map_key_mergeSort key l₁)
    (sorted_map_key_mergeSort key l₂)
  have p1 : ((l₁.mergeSort (fun a b => decide (key a ≤ key b))).map key).Perm
      (l₁.map key) := (List.mergeSort_perm l₁ _).map key
  have p2 : ((l₂.mergeSort (fun a b => decide (key a ≤ key b))).map key).Perm
      (l₂.map key) := (List.mergeSort_perm l₂ _).map key
  exact (p1.trans h).trans p2.symm

/-! ## Claim theorems -/

/-- C1: for every test case, the reported pass rate is
`100 × passed / iterations`, the test verdict is `Pass` exactly when the
pass rate reaches the configured threshold and `Fail` otherwise, and in the
aggregated results a skill's verdict is `Pass` exactly when every one of its
tests passed. -/
theorem c1_pass_rate_and_verdicts (test : SimplifiedTestCase)
    (as gs : List Assertion) (skill : SkillDir) (env : Nat → IterationEnv)
    (sds : List SkillDir) (completed : List (String × SimplifiedTestResult)) :
    ((run_simplified_test_case test as gs skill env).1.pass_rate =
        100 * ((run_simplified_test_case test as gs skill env).1.passed : ℚ) /
          ((run_simplified_test_case test as gs skill env).1.iterations : ℚ)
      ∧ ((run_simplified_test_case test as gs skill env).1.verdict = Verdict.Pass ↔
          (skill.config.threshold : ℚ) ≤
            (run_simplified_test_case test as gs skill env).1.pass_rate)
      ∧ ((run_simplified_test_case test as gs skill env).1.verdict = Verdict.Fail ↔
          ¬ (skill.config.threshold : ℚ) ≤
            (run_simplified_test_case test as gs skill env).1.pass_rate))
    ∧ ∀ r ∈ (run_all_aggregate sds completed).1,
        (r.verdict = Verdict.Pass ↔ ∀ t ∈ r.tests, t.verdict = Verdict.Pass) := by
  constructor
  · set n := test.iterations.getD skill.config.iterations with hn
    have hres : (run_simplified_test_case test as gs skill env).1.iterations = n := rfl
    have hpassed : (run_simplified_test_case test as gs skill env).1.passed =
        (((runIterations test as gs env n).map Prod.fst).filter
          (fun r => r.assertion_passed)).length := rfl
    have hple : (run_simplified_test_case test as gs skill env).1.passed ≤ n := by
      rw [hpassed]
      calc (((runIterations test as gs env n).map Prod.fst).filter
            (fun r => r.assertion_passed)).length
          ≤ ((runIterations test as gs env n).map Prod.fst).length :=
            List.length_filter_le _ _
        _ = n := by rw [List.length_map, runIterations_length]
    have hrate : (run_simplified_test_case test as gs skill env).1.pass_rate =
        (if 0 < n then
          (((run_simplified_test_case test as gs skill env).1.passed : ℚ) / (n : ℚ)) * 100
        else 0) := rfl
    have hverd : (run_simplified_test_case test as gs skill env).1.verdict =
        (if (skill.config.threshold : ℚ) ≤
            (run_simplified_test_case test as gs skill env).1.pass_rate
          then Verdict.Pass else Verdict.Fail) := rfl
    refine ⟨?_, ?_, ?_⟩
    · rw [hrate, hres]
      by_cases h0 : 0 < n
      · rw [if_pos h0, div_mul_eq_mul_div, mul_comm]
      · have hn0 : n = 0 := by omega
        have hp0 : (run_simplified_test_case test as gs skill env).1.passed = 0 := by omega
        rw [if_neg h0, hn0, hp0]
        norm_num
    · rw [hverd]
      by_cases h : (skill.config.threshold : ℚ) ≤
          (run_simplified_test_case test as gs skill env).1.pass_rate
      · simp [h]
      · simp [h]
    · rw [hverd]
      by_cases h : (skill.config.threshold : ℚ) ≤
          (run_simplified_test_case test as gs skill env).1.pass_rate
      · simp [h]
      · simp [h]
  · intro r hr
    have hr2 : r ∈ groupBySkill sds completed := by
      have hperm := List.mergeSort_perm (groupBySkill sds completed)
        (fun a b => decide (a.name ≤ b.name))
      exact hperm.mem_iff.mp hr
    exact mem_groupBySkill_verdict sds completed r hr2

/-- C2 (counterexample): an iteration whose agent invocation failed is
recorded with an empty `output_hash`, which is not the 64-hex-character
SHA-256 of its (empty) output text — the empty string differs from
`compute_output_hash []`. -/
theorem c2_counterexample :
    ((run_simplified_test_case sampleCase [] [] sampleSkill
        (fun _ => Except.error "Claude execution error: timeout after 60000ms")).2.iterations.map
      fun it => (it.output_hash, it.output)) = [("", [])]
    ∧ ("" : String) ≠ compute_output_hash ([] : List Char) := by
  constructor
  · rfl
  · intro hcontra
    have hl : ("" : String).length = 64 := by
      rw [hcontra, compute_output_hash_length]
    exact absurd hl (by decide)

/-- C2 (amended): for every iteration whose agent invocation succeeded, the
recorded `output_hash` is the 64-hex-character SHA-256 of the untruncated
output text; an iteration whose invocation failed is recorded with an empty
`output_hash` and empty output; and for every recorded iteration the
`passed` flag is true iff every required assertion record passed. -/
theorem c2_output_hash_and_passed (test : SimplifiedTestCase)
    (as gs : List Assertion) (i : Nat) (r : ExecutionResult) (ev : EvalOutcome)
    (msg : String) (skill : SkillDir) (env : Nat → IterationEnv) :
    ((run_simplified_iteration test as gs i r ev).2.output_hash =
        compute_output_hash r.result
      ∧ ((run_simplified_iteration test as gs i r ev).2.output_hash.length = 64
      ∧ ∀ c ∈ (run_simplified_iteration test as gs i r ev).2.output_hash.data,
          c ∈ ("0123456789abcdef".data)))
    ∧ ((errorIteration test i msg).2.output_hash = ""
      ∧ (errorIteration test i msg).2.output = [])
    ∧ ∀ it ∈ (run_simplified_test_case test as gs skill env).2.iterations,
        (it.passed = true ↔ ∀ rec ∈ it.assertions, rec.passed = true) := by
  refine ⟨?_, ⟨rfl, rfl⟩, ?_⟩
  · rcases hA : evalAssertions ev as with ⟨p, f, d⟩
    rcases hG : evalAssertions ev gs with ⟨pg, fg, dg⟩
    have hhash : (run_simplified_iteration test as gs i r ev).2.output_hash =
        compute_output_hash r.result := by
      simp [run_simplified_iteration, hA, hG]
    refine ⟨hhash, ?_, ?_⟩
    · rw [hhash, compute_output_hash_length]
    · rw [hhash]
      exact compute_output_hash_hex r.result
  · intro it hit
    have hmap : (run_simplified_test_case test as gs skill env).2.iterations =
        (runIterations test as gs env (test.iterations.getD skill.config.iterations)).map
          Prod.snd := rfl
    rw [hmap, List.mem_map] at hit
    obtain ⟨x, hx, rfl⟩ := hit
    obtain ⟨j, rfl⟩ := mem_runIterations test as gs env _ x hx
    rcases henv : env j with m | ⟨rj, evj⟩
    · simp [iterStep, henv, errorIteration]
    · rcases hA : evalAssertions evj as with ⟨p, f, d⟩
      rcases hG : evalAssertions evj gs with ⟨pg, fg, dg⟩
      have h1 : (iterStep test as gs env j).2.passed = p := by
        simp [iterStep, henv, run_simplified_iteration, hA, hG]
      have h2 : (iterStep test as gs env j).2.assertions = d := by
        simp [iterStep, henv, run_simplified_iteration, hA, hG]
      rw [h1, h2]
      have := evalAssertions_passed_iff evj as
      rw [hA] at this
      exact this

/-- C2 (witness): the amended theorem applied to a concrete successful
iteration and a concrete failed one. -/
theorem c2_witness :
    (run_simplified_iteration sampleCase [] [] 1
        ⟨"hello".data, [], 5⟩ (fun _ => Except.ok true)).2.output_hash =
      compute_output_hash "hello".data
    ∧ (errorIteration sampleCase 1 "boom").2.output_hash = "" :=
  ⟨(c2_output_hash_and_passed sampleCase [] [] 1 ⟨"hello".data, [], 5⟩
      (fun _ => Except.ok true) "boom" sampleSkill
      (fun _ => Except.error "boom")).1.1,
   (c2_output_hash_and_passed sampleCase [] [] 1 ⟨"hello".data, [], 5⟩
      (fun _ => Except.ok true) "boom" sampleSkill
      (fun _ => Except.error "boom")).2.1.1⟩

/-- C5: an iteration whose agent invocation errors is recorded as a failed
iteration with exactly one synthetic assertion record of type
`"execution"` describing the error, and the test case still records every
configured iteration (the loop proceeds instead of aborting). -/
theorem c5_invoker_error_demoted (test : SimplifiedTestCase)
    (as gs : List Assertion) (skill : SkillDir) (env : Nat → IterationEnv)
    (i : Nat) (msg : String) (henv : env (i + 1) = Except.error msg)
    (hi : i < test.iterations.getD skill.config.iterations) :
    (run_simplified_test_case test as gs skill env).2.iterations.length =
      test.iterations.getD skill.config.iterations
    ∧ (run_simplified_test_case test as gs skill env).2.iterations.get? i =
        some (errorIteration test (i + 1) msg).2
    ∧ (errorIteration test (i + 1) msg).2.passed = false
    ∧ (errorIteration test (i + 1) msg).2.assertions =
        [{ name := "execution", desc := some "Claude execution",
           assertion_type := "execution", pattern := none, passed := false,
           error := some msg }]
    ∧ (errorIteration test (i + 1) msg).2.golden_assertions = [] := by
  refine ⟨run_simplified_test_case_iterations test as gs skill env, ?_, rfl, rfl, rfl⟩
  have hmap : (run_simplified_test_case test as gs skill env).2.iterations =
      (runIterations test as gs env (test.iterations.getD skill.config.iterations)).map
        Prod.snd := rfl
  rw [hmap, List.get?_map, runIterations_get? test as gs env _ i hi]
  simp [iterStep, henv]

/-- C5 (witness): the theorem applied to a concrete single-iteration test
whose invocation times out. -/
theorem c5_witness :
    (fun _ => Except.error "timeout after 60000ms" : Nat → IterationEnv) (0 + 1) =
        Except.error "timeout after 60000ms"
    ∧ 0 < sampleCase.iterations.getD sampleSkill.config.iterations
    ∧ (run_simplified_test_case sampleCase [] [] sampleSkill
        (fun _ => Except.error "timeout after 60000ms")).2.iterations.get? 0 =
      some (errorIteration sampleCase 1 "timeout after 60000ms").2 :=
  ⟨rfl, by decide,
   (c5_invoker_error_demoted sampleCase [] [] sampleSkill
      (fun _ => Except.error "timeout after 60000ms") 0 "timeout after 60000ms"
      rfl (by decide)).2.1⟩

/-- C6: the stored `output` field is the output truncated at a budget of
100000 characters with the marker appended exactly when truncation
occurred, and each of the three truncation functions is UTF-8-safe for
every input and budget: it never panics (the modelled byte slice always
succeeds) and returns a character prefix of its input, possibly followed by
its marker. -/
theorem c6_truncation_safe (test : SimplifiedTestCase) (as gs : List Assertion)
    (i : Nat) (r : ExecutionResult) (ev : EvalOutcome) :
    (run_simplified_iteration test as gs i r ev).2.output =
        truncate_utf8 r.result MAX_OUTPUT_CHARS
    ∧ MAX_OUTPUT_CHARS = 100000
    ∧ (∀ s n, truncate_utf8 s n =
        if s.length ≤ n then s else s.take n ++ ("... [truncated]".data))
    ∧ (∀ s n, ∃ p, truncate_string s n = some p ∧
        (p = s ∨ ∃ q, q <+: s ∧ p = q ++ ("...[truncated]".data)))
    ∧ (∀ s n, ∃ p, truncate_output s n = some p ∧
        (p = firstLine s ∨ ∃ q, q <+: firstLine s ∧ p = q ++ ("...".data))) := by
  refine ⟨?_, rfl, truncate_utf8_eq, truncate_string_safe, truncate_output_safe⟩
  rcases hA : evalAssertions ev as with ⟨p, f, d⟩
  rcases hG : evalAssertions ev gs with ⟨pg, fg, dg⟩
  simp [run_simplified_iteration, hA, hG]

/-- C3: in the final execution report the skill list is sorted by skill
name and each skill's detailed test list is sorted by test id; and for any
two completion orders of the same results (models of two runs of the same
input, or of two interleavings under concurrency) the reported skill-name
order and each skill's test-name order coincide. -/
theorem c3_deterministic_sorted_report (sds : List SkillDir) (ts₁ ts₂ : String)
    (completed₁ completed₂ : List (String × SimplifiedTestResult))
    (collected₁ collected₂ : List (String × DetailedTestResult))
    (_hc : completed₂.Perm completed₁) (hd : collected₂.Perm collected₁) :
    ((build_execution_report ts₁ (run_all_aggregate sds completed₁).1
        (run_all_aggregate sds completed₁).2 collected₁).skills.map
      (fun s => s.skill_name)).Sorted (· ≤ ·)
    ∧ (∀ sk ∈ (build_execution_report ts₁ (run_all_aggregate sds completed₁).1
        (run_all_aggregate sds completed₁).2 collected₁).skills,
        (sk.tests.map (fun t => t.name)).Sorted (· ≤ ·))
    ∧ (build_execution_report ts₁ (run_all_aggregate sds completed₁).1
        (run_all_aggregate sds completed₁).2 collected₁).skills.map
          (fun s => s.skill_name) =
      (build_execution_report ts₂ (run_all_aggregate sds completed₂).1
        (run_all_aggregate sds completed₂).2 collected₂).skills.map
          (fun s => s.skill_name)
    ∧ (build_execution_report ts₁ (run_all_aggregate sds completed₁).1
        (run_all_aggregate sds completed₁).2 collected₁).skills.map
          (fun s => s.tests.map fun t => t.name) =
      (build_execution_report ts₂ (run_all_aggregate sds completed₂).1
        (run_all_aggregate sds completed₂).2 collected₂).skills.map
          (fun s => s.tests.map fun t => t.name) := by
  have hmapname₁ : (build_execution_report ts₁ (run_all_aggregate sds completed₁).1
      (run_all_aggregate sds completed₁).2 collected₁).skills.map
        (fun s => s.skill_name) =
      ((groupBySkill sds completed₁).mergeSort
        (fun a b => decide (a.name ≤ b.name))).map (fun r => r.name) := by
    show (((groupBySkill sds completed₁).mergeSort
        (fun a b => decide (a.name ≤ b.name))).map _).map _ = _
    rw [List.map_map]
    rfl
  have hmapname₂ : (build_execution_report ts₂ (run_all_aggregate sds completed₂).1
      (run_all_aggregate sds completed₂).2 collected₂).skills.map
        (fun s => s.skill_name) =
      ((groupBySkill sds completed₂).mergeSort
        (fun a b => decide (a.name ≤ b.name))).map (fun r => r.name) := by
    show (((groupBySkill sds completed₂).mergeSort
        (fun a b => decide (a.name ≤ b.name))).map _).map _ = _
    rw [List.map_map]
    rfl
  have hnameeq : ((groupBySkill sds completed₁).mergeSort
      (fun a b => decide (a.name ≤ b.name))).map (fun r => r.name) =
      ((groupBySkill sds completed₂).mergeSort
        (fun a b => decide (a.name ≤ b.name))).map (fun r => r.name) := by
    apply map_key_mergeSort_perm_eq
    rw [groupBySkill_names sds completed₁, groupBySkill_names sds completed₂]
  have hg : ∀ nm, (into_sorted_results collected₁ nm).map (fun t => t.name) =
      (into_sorted_results collected₂ nm).map (fun t => t.name) := by
    intro nm
    apply map_key_mergeSort_perm_eq
    have hp : (collected₁.filter fun p => p.1 == nm).Perm
        (collected₂.filter fun p => p.1 == nm) := (hd.filter _).symm
    exact (hp.map Prod.snd).map (fun t => t.name)
  refine ⟨?_, ?_, ?_, ?_⟩
  · rw [hmapname₁]
    exact sorted_map_key_mergeSort _ _
  · intro sk hsk
    obtain ⟨r, _, rfl⟩ := List.mem_map.mp hsk
    exact sorted_map_key_mergeSort (fun t : DetailedTestResult => t.name) _
  · rw [hmapname₁, hmapname₂, hnameeq]
  · have h4 : ∀ (c : List (String × SimplifiedTestResult))
        (col : List (String × DetailedTestResult)) (ts : String),
        (build_execution_report ts (run_all_aggregate sds c).1
          (run_all_aggregate sds c).2 col).skills.map
            (fun s => s.tests.map fun t => t.name) =
        (((groupBySkill sds c).mergeSort
          (fun a b => decide (a.name ≤ b.name))).map (fun r => r.name)).map
            (fun nm => (into_sorted_results col nm).map fun t => t.name) := by
      intro c col ts
      show (((groupBySkill sds c).mergeSort
          (fun a b => decide (a.name ≤ b.name))).map _).map _ = _
      rw [List.map_map, List.map_map]
      rfl
    rw [h4, h4, hnameeq]
    apply List.map_congr_left
    intro nm _
    exact hg nm

/-- C3 (witness): the theorem applied to two concrete completion orders
that are permutations of each other. -/
theorem c3_witness :
    ([("beta", sampleTestResult "t2" Verdict.Pass),
      ("sample", sampleTestResult "t1" Verdict.Pass)].Perm
      [("sample", sampleTestResult "t1" Verdict.Pass),
       ("beta", sampleTestResult "t2" Verdict.Pass)])
    ∧ ([("beta", sampleDetailed "t2"), ("sample", sampleDetailed "t1")].Perm
        [("sample", sampleDetailed "t1"), ("beta", sampleDetailed "t2")])
    ∧ (build_execution_report "ts1"
        (run_all_aggregate [sampleSkill, sampleSkillB]
          [("sample", sampleTestResult "t1" Verdict.Pass),
           ("beta", sampleTestResult "t2" Verdict.Pass)]).1
        (run_all_aggregate [sampleSkill, sampleSkillB]
          [("sample", sampleTestResult "t1" Verdict.Pass),
           ("beta", sampleTestResult "t2" Verdict.Pass)]).2
        [("sample", sampleDetailed "t1"), ("beta", sampleDetailed "t2")]).skills.map
          (fun s => s.skill_name) =
      (build_execution_report "ts2"
        (run_all_aggregate [sampleSkill, sampleSkillB]
          [("beta", sampleTestResult "t2" Verdict.Pass),
           ("sample", sampleTestResult "t1" Verdict.Pass)]).1
        (run_all_aggregate [sampleSkill, sampleSkillB]
          [("beta", sampleTestResult "t2" Verdict.Pass),
           ("sample", sampleTestResult "t1" Verdict.Pass)]).2
        [("beta", sampleDetailed "t2"), ("sample", sampleDetailed "t1")]).skills.map
          (fun s => s.skill_name) :=
  ⟨by decide, by decide,
   (c3_deterministic_sorted_report [sampleSkill, sampleSkillB] "ts1" "ts2"
      [("sample", sampleTestResult "t1" Verdict.Pass),
       ("beta", sampleTestResult "t2" Verdict.Pass)]
      [("beta", sampleTestResult "t2" Verdict.Pass),
       ("sample", sampleTestResult "t1" Verdict.Pass)]
      [("sample", sampleDetailed "t1"), ("beta", sampleDetailed "t2")]
      [("beta", sampleDetailed "t2"), ("sample", sampleDetailed "t1")]
      (by decide) (by decide)).2.2.1⟩

theorem sub_filter_len_zero {α : Type} (p : α → Bool) (L : List α) :
    (L.length - (L.filter p).length = 0 ↔ ∀ a ∈ L, p a) := by
  have hle := List.length_filter_le p L
  constructor
  · intro h
    exact List.filter_length_eq_length.mp (by omega)
  · intro h
    have := List.filter_length_eq_length.mpr h
    omega

/-- C4: the exit code is `2` exactly on a configuration error; with a valid
configuration the run phase determines the code: `3` when loading any
skill's test files fails (a loader error aborts the whole run), otherwise
`0` when no skill failed and `1` when at least one did; and a skill counts
as failed exactly when its verdict is not `Pass`. -/
theorem c4_exit_codes (cli : Cli) (resolve_res : Except String (List Path))
    (detect_res : Except String (List SkillDir)) (files_of : SkillDir → List TestFile)
    (env : Nat → Nat → IterationEnv) :
    (run_command cli resolve_res detect_res files_of env = exitCONFIG_ERROR ↔
      config_error cli resolve_res detect_res = true)
    ∧ (∀ dirs ht, detect_res = .ok dirs → hook_parse cli = .ok ht →
        config_error cli resolve_res detect_res = false →
        run_command cli resolve_res detect_res files_of env =
          match run_all_skill_tests
              ((dirs.map fun sd =>
                { sd with config := apply_overrides sd.config (cli_overrides cli ht) }).map
                fun sd => (sd, files_of sd)) cli.filter env with
          | .error _ => exitEXECUTION_ERROR
          | .ok (results, summary) =>
            if results.isEmpty then exitSUCCESS
            else if summary.failed_skills == 0 then exitSUCCESS
            else exitTHRESHOLD_NOT_MET)
    ∧ (∀ skills f e le, run_all_load skills f = Except.error le →
        run_all_skill_tests skills f e = Except.error le)
    ∧ (∀ sds completed,
        ((run_all_aggregate sds completed).2.failed_skills = 0 ↔
          ∀ r ∈ (run_all_aggregate sds completed).1, r.verdict = Verdict.Pass)) := by
  refine ⟨?_, ?_, ?_, ?_⟩
  · rcases hf : report_format_from_str cli.format with ef | f
    · simp [run_command, config_error, hf, exitCONFIG_ERROR, Except.isOk, Except.toBool]
    · rcases hr : resolve_res with er | ps
      · simp [run_command, config_error, hf, hr, Except.isOk, Except.toBool]
      · rcases hdet : detect_res with ed | dirs
        · simp [run_command, config_error, hf, hr, hdet, Except.isOk, Except.toBool]
        · by_cases hde : dirs.isEmpty
          · simp [run_command, config_error, hf, hr, hdet, hde, Except.isOk, Except.toBool]
          · rcases hh : hook_parse cli with eh | ht
            · simp [run_command, config_error, hf, hr, hdet, hde, hh, Except.isOk, Except.toBool]
            · by_cases hc1 : (ht == some HookType.Custom && cli.hook_path.isNone) = true
              · simp [run_command, config_error, hf, hr, hdet, hde, hh, hc1, Except.isOk, Except.toBool]
              · by_cases hc2 : (cli.hook_path.isSome && ht != some HookType.Custom) = true
                · simp [run_command, config_error, hf, hr, hdet, hde, hh, hc1, hc2,
                    Except.isOk, Except.toBool]
                · have hrhs : config_error cli (Except.ok ps) (Except.ok dirs) = false := by
                    simp [config_error, hf, hde, hh, hc1, hc2, Except.isOk, Except.toBool]
                  rw [hrhs]
                  simp only [run_command, hf, hr, hdet, hh]
                  rw [if_neg (by simpa using hde), if_neg (by simpa using hc1),
                    if_neg (by simpa using hc2)]
                  rcases hrun : run_all_skill_tests
                      ((dirs.map fun sd =>
                        { sd with config :=
                            apply_overrides sd.config (cli_overrides cli ht) }).map
                        fun sd => (sd, files_of sd)) cli.filter env with e | pr
                  · rw [hrun]
                    simp [exitEXECUTION_ERROR, exitCONFIG_ERROR]
                  · obtain ⟨results, summary⟩ := pr
                    rw [hrun]
                    by_cases h1 : results.isEmpty
                    · simp [h1, exitSUCCESS, exitCONFIG_ERROR]
                    · by_cases h2 : summary.failed_skills == 0
                      · simp [h1, h2, exitSUCCESS, exitCONFIG_ERROR]
                      · simp [h1, h2, exitTHRESHOLD_NOT_MET, exitCONFIG_ERROR]
  · intro dirs ht hdet hh hcfg
    unfold config_error at hcfg
    rw [hdet, hh] at hcfg
    rcases hf : report_format_from_str cli.format with ef | f
    · rw [hf] at hcfg
      simp [Except.isOk, Except.toBool] at hcfg
    · rw [hf] at hcfg
      rcases hr : resolve_res with er | ps
      · rw [hr] at hcfg
        simp [Except.isOk, Except.toBool] at hcfg
      · rw [hr] at hcfg
        simp only [Except.isOk, Except.toBool, Bool.not_true, Bool.not_false,
          Bool.false_or, Bool.or_eq_false_iff] at hcfg
        simp only [run_command, hf, hr, hdet, hh]
        rw [if_neg (by simp [hcfg.1]), if_neg (by simp [hcfg.2.1]),
          if_neg (by simp [hcfg.2.2])]
  · intro skills f e le h
    unfold run_all_skill_tests
    rw [h]
    rfl
  · intro sds completed
    have h0 : (run_all_aggregate sds completed).2.failed_skills =
        (run_all_aggregate sds completed).1.length -
          ((run_all_aggregate sds completed).1.filter
            fun r => r.verdict == Verdict.Pass).length := rfl
    rw [h0, sub_filter_len_zero]
    constructor
    · intro h r hr
      simpa using h r hr
    · intro h r hr
      simp [h r hr]

/-- C4 (witness): a concrete invalid configuration (unknown format) exits
with code 2. -/
theorem c4_witness :
    config_error
        { iterations := none, hook := none, hook_path := none, model := none,
          timeout := none, threshold := none, strict := false, format := "csv",
          filter := none, no_error_log := false }
        (Except.ok []) (Except.ok [sampleSkill]) = true
    ∧ run_command
        { iterations := none, hook := none, hook_path := none, model := none,
          timeout := none, threshold := none, strict := false, format := "csv",
          filter := none, no_error_log := false }
        (Except.ok []) (Except.ok [sampleSkill]) (fun _ => [])
        (fun _ _ => Except.error "e") = exitCONFIG_ERROR :=
  ⟨by decide,
   (c4_exit_codes
      { iterations := none, hook := none, hook_path := none, model := none,
        timeout := none, threshold := none, strict := false, format := "csv",
        filter := none, no_error_log := false }
      (Except.ok []) (Except.ok [sampleSkill]) (fun _ => [])
      (fun _ _ => Except.error "e")).1.mpr (by decide)⟩

theorem contains_eq_mem (l : List String) (a : String) :
    l.contains a = decide (a ∈ l) := by
  simp [List.contains]

theorem resolveRefsAux_nil (named : List (String × Assertion)) (sn : String)
    (seen : List String) : resolveRefsAux named sn [] seen = Except.ok [] := rfl

theorem resolveRefsAux_cons (named : List (String × Assertion)) (sn : String)
    (r : AssertionRef) (rest : List AssertionRef) (seen : List String) :
    resolveRefsAux named sn (r :: rest) seen =
      match (match r with
        | AssertionRef.Name n =>
          match named.lookup n with
          | some a => Except.ok a
          | none => Except.error (LoaderError.UndefinedAssertionRef n sn)
        | AssertionRef.Inline a => Except.ok a) with
      | .error e => .error e
      | .ok a =>
        if seen.contains a.id then
          .error (.DuplicateAssertionIdInScenario a.id sn)
        else
          match resolveRefsAux named sn rest (a.id :: seen) with
          | .error e => .error e
          | .ok as => .ok (a :: as) := rfl

theorem resolveRefsAux_ok_nodup (named : List (String × Assertion)) (name : String) :
    ∀ (refs : List AssertionRef) (seen : List String) (as2 : List Assertion),
      resolveRefsAux named name refs seen = Except.ok as2 →
      ((as2.map Assertion.id).Nodup ∧ ∀ x ∈ as2.map Assertion.id, x ∉ seen) := by
  intro refs
  induction refs with
  | nil =>
    intro seen as2 h
    rw [resolveRefsAux_nil] at h
    cases h
    simp
  | cons r rest ih =>
    intro seen as2 h
    rw [resolveRefsAux_cons] at h
    rcases hres : (match r with
      | AssertionRef.Name n =>
        match named.lookup n with
        | some a => Except.ok a
        | none => Except.error (LoaderError.UndefinedAssertionRef n name)
      | AssertionRef.Inline a => Except.ok a) with e | a
    · simp only [hres] at h
      cases h
    · simp only [hres] at h
      by_cases hc : seen.contains a.id = true
      · simp only [if_pos hc] at h
        cases h
      · simp only [if_neg hc] at h
        rcases htail : resolveRefsAux named name rest (a.id :: seen) with e2 | tail
        · simp only [htail] at h
          cases h
        · simp only [htail] at h
          cases h
          obtain ⟨htn, hts⟩ := ih (a.id :: seen) tail htail
          rw [contains_eq_mem] at hc
          simp only [decide_eq_true_iff] at hc
          constructor
          · simp only [List.map_cons, List.nodup_cons]
            refine ⟨?_, htn⟩
            intro hmem
            exact (hts a.id hmem) (by simp)
          · intro x hx
            simp only [List.map_cons, List.mem_cons] at hx
            rcases hx with rfl | hx
            · exact hc
            · intro hxs
              exact (hts x hx) (by simp [hxs])

theorem resolveRefsAux_dup_error (named : List (String × Assertion)) (name : String) :
    ∀ (refs : List AssertionRef) (seen : List String) (ids : List String),
      resolvedIds named refs = some ids →
      (¬ ids.Nodup ∨ ∃ x ∈ ids, x ∈ seen) →
      ∃ d, resolveRefsAux named name refs seen =
        Except.error (LoaderError.DuplicateAssertionIdInScenario d name) := by
  intro refs
  induction refs with
  | nil =>
    intro seen ids hids hbad
    rw [resolvedIds] at hids
    cases hids
    rcases hbad with h | ⟨x, hx, _⟩
    · exact absurd List.nodup_nil h
    · simp at hx
  | cons r rest ih =>
    intro seen ids hids hbad
    have hstep : ∃ a rest_ids, (match r with
        | AssertionRef.Name n =>
          match named.lookup n with
          | some a => Except.ok a
          | none => Except.error (LoaderError.UndefinedAssertionRef n name)
        | AssertionRef.Inline a => Except.ok a) = Except.ok a
        ∧ resolvedIds named rest = some rest_ids ∧ ids = a.id :: rest_ids := by
      rcases r with n | a
      · rw [resolvedIds] at hids
        rcases hl : named.lookup n with _ | a
        · simp only [hl] at hids
          cases hids
        · simp only [hl] at hids
          rcases hrest : resolvedIds named rest with _ | rest_ids
          · simp only [hrest, Option.map_none'] at hids
            cases hids
          · simp only [hrest, Option.map_some', Option.some.injEq] at hids
            refine ⟨a, rest_ids, ?_, rfl, hids.symm⟩
            show (match named.lookup n with
              | some a => Except.ok a
              | none => Except.error (LoaderError.UndefinedAssertionRef n name)) =
              Except.ok a
            simp only [hl]
      · rw [resolvedIds] at hids
        rcases hrest : resolvedIds named rest with _ | rest_ids
        · simp only [hrest, Option.map_none'] at hids
          cases hids
        · simp only [hrest, Option.map_some', Option.some.injEq] at hids
          exact ⟨a, rest_ids, rfl, rfl, hids.symm⟩
    obtain ⟨a, rest_ids, hres, hrest, rfl⟩ := hstep
    rw [resolveRefsAux_cons]
    simp only [hres]
    by_cases hc : seen.contains a.id = true
    · rw [if_pos hc]
      exact ⟨a.id, rfl⟩
    · rw [if_neg hc]
      have hbad2 : ¬ rest_ids.Nodup ∨ ∃ x ∈ rest_ids, x ∈ a.id :: seen := by
        rw [contains_eq_mem] at hc
        simp only [decide_eq_true_iff] at hc
        rcases hbad with h | ⟨x, hx, hxs⟩
        · rw [List.nodup_cons] at h
          push_neg at h
          by_cases hmem : a.id ∈ rest_ids
          · exact Or.inr ⟨a.id, hmem, by simp⟩
          · exact Or.inl (h hmem)
        · rcases List.mem_cons.mp hx with rfl | hx2
          · exact absurd hxs hc
          · exact Or.inr ⟨x, hx2, by simp [hxs]⟩
      obtain ⟨d, hd⟩ := ih (a.id :: seen) rest_ids hrest hbad2
      rw [hd]
      exact ⟨d, rfl⟩

/-- C7: a duplicate assertion id inside one reference list (required or
golden) of a scenario is the error `DuplicateAssertionIdInScenario` naming
the id and the scenario, while the same id appearing in the required list
and in the golden list of the same scenario resolves without error, since
each list is resolved with its own set of seen ids. -/
theorem c7_duplicate_ids_per_list (named : List (String × Assertion)) (name : String)
    (scen : Scenario) (as gs : List Assertion)
    (hp : ¬ strTrim scen.prompt = "")
    (hr : resolve_assertion_refs_with_dup_check scen.assertions named name = Except.ok as)
    (hg : resolve_assertion_refs_with_dup_check scen.golden_assertions named name =
      Except.ok gs) :
    resolveScenario named name scen =
      Except.ok { name, desc := scen.desc, prompt := scen.prompt,
                  iterations := scen.iterations, assertions := as,
                  golden_assertions := gs }
    ∧ (∀ refs as2,
        resolve_assertion_refs_with_dup_check refs named name = Except.ok as2 →
        (as2.map Assertion.id).Nodup)
    ∧ (∀ refs ids, resolvedIds named refs = some ids → ¬ ids.Nodup →
        ∃ d, resolve_assertion_refs_with_dup_check refs named name =
          Except.error (LoaderError.DuplicateAssertionIdInScenario d name)) := by
  refine ⟨?_, ?_, ?_⟩
  · unfold resolveScenario
    rw [if_neg hp, hr, hg]
    rfl
  · intro refs as2 h
    exact (resolveRefsAux_ok_nodup named name refs [] as2 h).1
  · intro refs ids hids hdup
    exact resolveRefsAux_dup_error named name refs [] ids hids (Or.inl hdup)

/-- C7 (witness): the theorem applied to a concrete scenario whose required
and golden list both name the same assertion, and to a reference list
naming it twice. -/
theorem c7_witness :
    resolveScenario [("x", Assertion.Contains ⟨"x", none, "hello", PatternExpect.Present⟩)]
        "scen"
        { desc := none, prompt := "do it", iterations := none,
          assertions := [AssertionRef.Name "x"],
          golden_assertions := [AssertionRef.Name "x"] } =
      Except.ok { name := "scen", desc := none, prompt := "do it", iterations := none,
                  assertions := [Assertion.Contains ⟨"x", none, "hello", PatternExpect.Present⟩],
                  golden_assertions :=
                    [Assertion.Contains ⟨"x", none, "hello", PatternExpect.Present⟩] }
    ∧ ∃ d, resolve_assertion_refs_with_dup_check
        [AssertionRef.Name "x", AssertionRef.Name "x"]
        [("x", Assertion.Contains ⟨"x", none, "hello", PatternExpect.Present⟩)] "scen" =
      Except.error (LoaderError.DuplicateAssertionIdInScenario d "scen") :=
  ⟨(c7_duplicate_ids_per_list
      [("x", Assertion.Contains ⟨"x", none, "hello", PatternExpect.Present⟩)] "scen"
      { desc := none, prompt := "do it", iterations := none,
        assertions := [AssertionRef.Name "x"],
        golden_assertions := [AssertionRef.Name "x"] }
      [Assertion.Contains ⟨"x", none, "hello", PatternExpect.Present⟩]
      [Assertion.Contains ⟨"x", none, "hello", PatternExpect.Present⟩]
      (by decide) rfl rfl).1,
   (c7_duplicate_ids_per_list
      [("x", Assertion.Contains ⟨"x", none, "hello", PatternExpect.Present⟩)] "scen"
      { desc := none, prompt := "do it", iterations := none,
        assertions := [AssertionRef.Name "x"],
        golden_assertions := [AssertionRef.Name "x"] }
      [Assertion.Contains ⟨"x", none, "hello", PatternExpect.Present⟩]
      [Assertion.Contains ⟨"x", none, "hello", PatternExpect.Present⟩]
      (by decide) rfl rfl).2.2
      [AssertionRef.Name "x", AssertionRef.Name "x"] ["x", "x"]
      rfl (by decide)⟩

theorem resolveFilePaths_cons (fs : FileSys) (std : Path) (tid : String) (bd : Path)
    (p : Path) (rest : List Path) (seen : List String) (visited : List Path) :
    resolveFilePaths fs std tid bd (p :: rest) seen visited =
      match fs.canonicalize (bd ++ p) with
      | none => .error (.FileNotFound (bd ++ p))
      | some canonical =>
        if !(((fs.canonicalize std).getD std).isPrefixOf canonical) then
          .error (.FileRefOutsideSkillTests (bd ++ p))
        else if visited.contains canonical then
          .error (.CircularReference canonical)
        else
          match fs.read canonical with
          | .error e => .error e
          | .ok file_assertions =>
            match addFileAssertions tid (pathDisplay canonical) file_assertions seen with
            | .error e => .error e
            | .ok (as, seen2) =>
              match resolveFilePaths fs std tid bd rest seen2 (canonical :: visited) with
              | .error e => .error e
              | .ok (rest_as, seen3, visited3) => .ok (as ++ rest_as, seen3, visited3) := rfl

/-- C8 (counterexample): one test case whose required list and golden list
reference the same assertion file resolves successfully and loads the file
twice, because the visited-file set is created afresh for each assertion
list, not once per test case. -/
theorem c8_counterexample :
    resolve_case fsC8 ["skill-tests", "test.yaml"] ["skill-tests"] caseC8 =
      Except.ok (caseC8,
        [Assertion.Contains ⟨"c1", none, "hi", PatternExpect.Present⟩],
        [Assertion.Contains ⟨"c1", none, "hi", PatternExpect.Present⟩]) := rfl

/-- C8: while resolving one assertion list, a reference whose canonical path
the canonical skill-tests directory does not path-prefix fails with
`FileRefOutsideSkillTests` naming the joined path, and a canonical path
already in the visited set fails with `CircularReference`; the visited set
is per assertion list: a test case whose required and golden lists each
resolve successfully resolves successfully, even when both reference the
same file. -/
theorem c8_containment_and_visited (fs : FileSys) (std : Path) (tid : String)
    (bd : Path) (p : Path) (rest : List Path) (seen : List String)
    (visited : List Path) (c : Path)
    (hc : fs.canonicalize (bd ++ p) = some c) :
    (¬ ((fs.canonicalize std).getD std).isPrefixOf c = true →
      resolveFilePaths fs std tid bd (p :: rest) seen visited =
        Except.error (LoaderError.FileRefOutsideSkillTests (bd ++ p)))
    ∧ (((fs.canonicalize std).getD std).isPrefixOf c = true →
       visited.contains c = true →
       resolveFilePaths fs std tid bd (p :: rest) seen visited =
         Except.error (LoaderError.CircularReference c))
    ∧ (∀ (tf : Path) (case : SimplifiedTestCase) (as gs : List Assertion),
        resolve_assertions fs case.assertions tf std case.id = Except.ok as →
        resolve_assertions fs case.golden_assertions tf std case.id = Except.ok gs →
        resolve_case fs tf std case = Except.ok (case, as, gs)) := by
  refine ⟨?_, ?_, ?_⟩
  · intro h1
    rw [resolveFilePaths_cons]
    simp only [hc]
    have hb : ((fs.canonicalize std).getD std).isPrefixOf c = false := by
      cases hx : ((fs.canonicalize std).getD std).isPrefixOf c
      · rfl
      · exact absurd hx h1
    rw [hb]
    rfl
  · intro h1 h2
    rw [resolveFilePaths_cons]
    simp only [hc]
    rw [h1, h2]
    rfl
  · intro tf case as gs h1 h2
    unfold resolve_case
    rw [h1, h2]
    rfl

/-- C8 (witness): the theorem applied to the concrete filesystem: a file
whose canonical path lies outside the skill-tests directory is rejected
with `FileRefOutsideSkillTests`. -/
theorem c8_witness :
    fsC8.canonicalize ([] ++ ["outside.yaml"]) = some ["outside.yaml"]
    ∧ resolveFilePaths fsC8 ["skill-tests"] "t" [] [["outside.yaml"]] [] [] =
        Except.error (LoaderError.FileRefOutsideSkillTests ([] ++ ["outside.yaml"])) :=
  ⟨rfl,
   (c8_containment_and_visited fsC8 ["skill-tests"] "t" [] ["outside.yaml"] [] [] []
      ["outside.yaml"] rfl).1 (by decide)⟩

/-- C9 (counterexample): the temporary file name chosen by `evaluate_exec`
is a function of the code block alone, so two distinct concurrent
evaluation instances of the same block are assigned the same temporary
file. -/
theorem c9_counterexample :
    assignedTempPath { language := some "python", content := ['p'] } 0 =
      assignedTempPath { language := some "python", content := ['p'] } 1
    ∧ (0 : Nat) ≠ 1 :=
  ⟨rfl, by decide⟩

/-- C9: the temporary path assigned to an exec evaluation instance does not
depend on the instance, the chosen file name embeds the hex of the first 8
SHA-256 bytes of the block content plus the language extension, a
successful write is followed by exactly one removal of the temp file for
every command outcome, a failed write creates the file without removing
it, and a missing code block is the error `ExecFailed`. -/
theorem c9_temp_file_lifecycle (b : CodeBlock) (i j : Nat) (cmd : CmdOutcome)
    (a : ExecAssertion) :
    assignedTempPath b i = assignedTempPath b j
    ∧ exec_temp_file_name b =
        "exec-" ++ String.mk (hexEncode ((sha256 (utf8Encode b.content)).take 8)) ++ "." ++
          ((b.language.map language_to_extension).getD "txt")
    ∧ (evaluate_exec (some b) (Except.ok ()) cmd a).2 =
        [FsEvent.create (exec_temp_file_name b), FsEvent.removeFile (exec_temp_file_name b)]
    ∧ (∀ e, (evaluate_exec (some b) (Except.error e) cmd a).2 =
        [FsEvent.create (exec_temp_file_name b)])
    ∧ (evaluate_exec none (Except.ok ()) cmd a).1 =
        Except.error (AssertionEvalError.ExecFailed "no matching code block found") := by
  refine ⟨rfl, rfl, ?_, ?_, rfl⟩
  · cases cmd with
    | timeout => rfl
    | ioError e => rfl
    | completed es out =>
      cases hx : a.expect with
      | ExitCodeZero => simp [evaluate_exec, hx]
      | OutputContains s => simp [evaluate_exec, hx]
  · intro e
    rfl

theorem run_all_load_no_files (filter : Option String) :
    ∀ skills : List (SkillDir × List TestFile),
      (∀ s ∈ skills, s.2 = ([] : List TestFile)) →
      run_all_load skills filter = Except.ok [] := by
  intro skills
  induction skills with
  | nil =>
    intro _
    rfl
  | cons s rest ih =>
    intro h
    obtain ⟨sd, files⟩ := s
    have hf : files = [] := h (sd, files) (by simp)
    subst hf
    have hr := ih fun x hx => h x (by simp [hx])
    show (run_all_load rest filter >>= fun restItems =>
      Except.ok
        (([] : List (SkillDir × SimplifiedTestCase × List Assertion × List Assertion)) ++
          restItems)) = Except.ok []
    rw [hr]
    rfl

theorem groupBySkill_no_completed :
    ∀ dirs : List SkillDir,
      groupBySkill dirs [] = dirs.map fun sd =>
        { name := sd.name, path := sd.path, tests := [], verdict := Verdict.Pass } := by
  intro dirs
  induction dirs with
  | nil => rfl
  | cons d rest ih =>
    show ({ name := d.name, path := d.path, tests := [], verdict := Verdict.Pass } :
        SkillTestResult) :: groupBySkill rest [] = _
    rw [ih]
    rfl

theorem run_all_aggregate_no_completed (dirs : List SkillDir) :
    (∀ r ∈ (run_all_aggregate dirs []).1, r.tests = [] ∧ r.verdict = Verdict.Pass)
    ∧ (run_all_aggregate dirs []).2.failed_skills = 0 := by
  have hmem : ∀ r ∈ (run_all_aggregate dirs []).1,
      r.tests = [] ∧ r.verdict = Verdict.Pass := by
    intro r hr
    have hperm : ((groupBySkill dirs []).mergeSort
        (fun a b => decide (a.name ≤ b.name))).Perm (groupBySkill dirs []) :=
      List.mergeSort_perm _ _
    have hr2 : r ∈ groupBySkill dirs [] := hperm.mem_iff.mp hr
    rw [groupBySkill_no_completed] at hr2
    obtain ⟨sd, _, rfl⟩ := List.mem_map.mp hr2
    exact ⟨rfl, rfl⟩
  refine ⟨hmem, ?_⟩
  have h0 : (run_all_aggregate dirs []).2.failed_skills =
      (run_all_aggregate dirs []).1.length -
        ((run_all_aggregate dirs []).1.filter
          fun r => r.verdict == Verdict.Pass).length := rfl
  rw [h0, sub_filter_len_zero]
  intro r hr
  simp [(hmem r hr).2]

/-- C10: a skill with no discovered test files gets the result with an
empty test list and verdict `Pass`; a run over skill directories none of
which has test files reports every skill as passed with zero failed
skills; and with a valid configuration such a run exits with code 0. -/
theorem c10_empty_discovery_passes (skill : SkillDir) (filter : Option String)
    (env : Nat → Nat → IterationEnv) (cli : Cli) (fmt : ReportFormat)
    (ps : List Path) (dirs : List SkillDir)
    (hfmt : report_format_from_str cli.format = Except.ok fmt)
    (hhook : cli.hook = none) (hpath : cli.hook_path = none)
    (hne : dirs.isEmpty = false) :
    run_skill_tests skill [] filter env =
      Except.ok { name := skill.name, path := skill.path, tests := [],
                  verdict := Verdict.Pass }
    ∧ (∃ results summary,
        run_all_skill_tests (dirs.map fun d => (d, ([] : List TestFile))) filter env =
          Except.ok (results, summary)
        ∧ summary.failed_skills = 0
        ∧ ∀ r ∈ results, r.tests = [] ∧ r.verdict = Verdict.Pass)
    ∧ run_command cli (Except.ok ps) (Except.ok dirs) (fun _ => []) env = exitSUCCESS := by
  refine ⟨rfl, ?_, ?_⟩
  · refine ⟨(run_all_aggregate ((dirs.map fun d =>
        (d, ([] : List TestFile))).map Prod.fst) []).1,
      (run_all_aggregate ((dirs.map fun d =>
        (d, ([] : List TestFile))).map Prod.fst) []).2, ?_, ?_, ?_⟩
    · unfold run_all_skill_tests
      rw [run_all_load_no_files filter (dirs.map fun d => (d, ([] : List TestFile)))
        (by intro x hx; obtain ⟨d, _, rfl⟩ := List.mem_map.mp hx; rfl)]
      rfl
    · exact (run_all_aggregate_no_completed _).2
    · exact (run_all_aggregate_no_completed _).1
  · have hhp : hook_parse cli = Except.ok none := by
      simp [hook_parse, hhook]
    simp only [run_command, hfmt, hhp]
    rw [if_neg (by simp [hne]), if_neg (by simp), if_neg (by simp [hpath])]
    have hrun : run_all_skill_tests ((dirs.map fun sd =>
        { sd with config := apply_overrides sd.config (cli_overrides cli none) }).map
          fun sd => (sd, ([] : List TestFile))) cli.filter env =
        Except.ok (run_all_aggregate (dirs.map fun sd =>
          { sd with config := apply_overrides sd.config (cli_overrides cli none) }) []) := by
      unfold run_all_skill_tests
      rw [run_all_load_no_files cli.filter ((dirs.map fun sd =>
          { sd with config := apply_overrides sd.config (cli_overrides cli none) }).map
            fun sd => (sd, ([] : List TestFile)))
        (by intro x hx; obtain ⟨d, _, rfl⟩ := List.mem_map.mp hx; rfl)]
      show Except.ok (run_all_aggregate (((dirs.map fun sd =>
          { sd with config := apply_overrides sd.config (cli_overrides cli none) }).map
            fun sd => (sd, ([] : List TestFile))).map Prod.fst) []) = _
      rw [List.map_map,
        show (Prod.fst ∘ fun sd : SkillDir => (sd, ([] : List TestFile))) = id from rfl,
        List.map_id]
    rw [hrun]
    rcases hagg : run_all_aggregate (dirs.map fun sd =>
        { sd with config := apply_overrides sd.config (cli_overrides cli none) }) []
      with ⟨results, summary⟩
    rw [hagg]
    have hfs : summary.failed_skills = 0 := by
      have h2 := (run_all_aggregate_no_completed (dirs.map fun sd =>
        { sd with config := apply_overrides sd.config (cli_overrides cli none) })).2
      rw [hagg] at h2
      exact h2
    show (if results.isEmpty then exitSUCCESS
      else if summary.failed_skills == 0 then exitSUCCESS
      else exitTHRESHOLD_NOT_MET) = exitSUCCESS
    by_cases h1 : results.isEmpty
    · rw [if_pos h1]
    · rw [if_neg h1, if_pos (by simp [hfs])]

/-- C10 (witness): the theorem applied to one concrete skill directory
without test files: the run exits with code 0. -/
theorem c10_witness :
    report_format_from_str "json" = Except.ok ReportFormat.Json
    ∧ run_command
        { iterations := none, hook := none, hook_path := none, model := none,
          timeout := none, threshold := none, strict := false, format := "json",
          filter := none, no_error_log := false }
        (Except.ok []) (Except.ok [sampleSkill]) (fun _ => [])
        (fun _ _ => Except.error "e") = exitSUCCESS :=
  ⟨rfl,
   (c10_empty_discovery_passes sampleSkill none (fun _ _ => Except.error "e")
      { iterations := none, hook := none, hook_path := none, model := none,
        timeout := none, threshold := none, strict := false, format := "json",
        filter := none, no_error_log := false }
      ReportFormat.Json [] [sampleSkill] rfl rfl rfl rfl).2.2⟩

end SkillTest
